import Mathlib

/-!
Verification of the serde-metaform encoder ("Form + JSON" format).

This file shallowly embeds the crate's serializer pipeline:
- src/write.rs: the percent-encoding writer (`PercentEncoding`), the
  JSON-escaping writer (`EscapingPercentEncodingWrite`) and the primitive
  emission operations of trait `WWrite`;
- src/json.rs: the composable JSON sub-serializer (`JsonSerializer`), the
  key-only serializer (`KeySerializerNoQuotes`) and the compound serializers
  (`SeqSerializer`, `MapSerializer`, variants);
- src/lib.rs: the top-level form serializer (`Serializer`) and the public
  entry points `to_writer`, `to_string`, `to_vec`;
- src/error.rs: the error type.

Values presented to a serde serializer drive it through the serde data model,
so the embedding works over an inductive `JValue` of serde shapes; writes into
a `String` sink never fail (std's `fmt::Write` for `String` is infallible), so
every serializer method becomes a pure function returning
`Except ErrorInner String` whose `.ok` result is exactly the text the method
appended to the sink, and whose `.error` is the first error raised.
The interleaved `is_first`/separator writes of the streaming code are
reassociated into separator-joined piece lists, which produces the identical
string on success and the identical first error on failure.
-/

namespace SerdeMetaform

/-- A float presented through `serialize_f32` / `serialize_f64`. The code
branches only on `is_finite` and otherwise hands the value to
`ryu::Buffer::format_finite`, so a finite float is carried here as its ryu
decimal rendering (the only fact about it the writers use). -/
inductive FloatV where
  | nan
  | inf
  | neginf
  | fin (render : String)
deriving DecidableEq

/-- Integer widths of the serde data model handled by `serialize_i8` ..
`serialize_u64` (the 128-bit methods are separate, see `JValue.vI128`). -/
inductive IntW where
  | i8 | i16 | i32 | i64 | u8 | u16 | u32 | u64
deriving DecidableEq

/-- The `stringify!` name used by the `error_unsupported!` macro arms. -/
def IntW.name : IntW → String
  | .i8 => "i8" | .i16 => "i16" | .i32 => "i32" | .i64 => "i64"
  | .u8 => "u8" | .u16 => "u16" | .u32 => "u32" | .u64 => "u64"

/-- Float widths (`serialize_f32` / `serialize_f64`). -/
inductive FloatW where
  | f32 | f64
deriving DecidableEq

def FloatW.name : FloatW → String
  | .f32 => "f32" | .f64 => "f64"

/-- The serde data model: one constructor per `Serializer` entry point that a
value can drive. Sequences, tuples, maps and structs carry their streamed
items as lists (the traversal visits them left to right exactly once). -/
inductive JValue where
  | vBool (b : Bool)
  | vInt (w : IntW) (n : Int)
  | vI128 (n : Int)
  | vU128 (n : Nat)
  | vFloat (w : FloatW) (x : FloatV)
  | vChar (c : Char)
  | vStr (s : String)
  | vBytes (bs : List Nat)
  | vUnit
  | vNone
  | vSome (v : JValue)
  | vUnitStruct
  | vNewtypeStruct (v : JValue)
  | vSeq (vs : List JValue)
  | vTuple (vs : List JValue)
  | vTupleStruct (vs : List JValue)
  | vMap (es : List (JValue × JValue))
  | vStruct (fs : List (String × JValue))
  | vUnitVariant (name : String)
  | vNewtypeVariant (name : String) (v : JValue)
  | vTupleVariant (name : String) (vs : List JValue)
  | vStructVariant (name : String) (fs : List (String × JValue))

/-- `ErrorInner` from src/error.rs. `Fmt` never arises for a `String` sink. -/
inductive ErrorInner where
  | Message (msg : String)
  | NotAnObject (t : String)
  | KeyMustBeAString (t : String)
  | FloatKeyMustBeFinite
  | Fmt
deriving DecidableEq

/-! ### Primitive renderings (src/write.rs `WWrite` methods) -/

/-- Decimal digit character. -/
def digitChar : Nat → Char
  | 0 => '0' | 1 => '1' | 2 => '2' | 3 => '3' | 4 => '4'
  | 5 => '5' | 6 => '6' | 7 => '7' | 8 => '8' | 9 => '9'
  | _ => '0'

/-- Decimal digits, most significant first; structural on a fuel bound that
dominates the digit count (any fuel above the number of digits agrees). -/
def natDecCore (fuel : Nat) (n : Nat) : List Char :=
  match fuel with
  | 0 => []
  | fuel + 1 =>
    if n < 10 then [digitChar n] else natDecCore fuel (n / 10) ++ [digitChar (n % 10)]

/-- Decimal digits of a natural number, most significant first (the rendering
`itoa` produces for the magnitude). -/
def natDec (n : Nat) : List Char := natDecCore (n + 1) n

/-- `WWrite::write_integer` via `itoa`: plain decimal with a leading minus for
negatives. -/
def intDec (n : Int) : String :=
  if n < 0 then String.mk ('-' :: natDec n.natAbs) else String.mk (natDec n.toNat)

/-- `WWrite::write_bool`. -/
def boolLit (b : Bool) : String := if b then "true" else "false"

/-! ### Percent-encoding (src/write.rs `PercentEncoding`) -/

/-- The unreserved characters of `FORM_URLENCODING_ENCODE_SET`:
`NON_ALPHANUMERIC.remove(-).remove(.).remove(_).remove(~)`, i.e. ASCII
alphanumerics plus `-` `.` `_` `~`. Everything else is percent-encoded. -/
def isUnresC (c : Char) : Bool :=
  c.isAlphanum || c == '-' || c == '.' || c == '_' || c == '~'

/-- Uppercase hex digit, as emitted by the `percent_encoding` crate. -/
def hexU : Nat → Char
  | 0 => '0' | 1 => '1' | 2 => '2' | 3 => '3' | 4 => '4'
  | 5 => '5' | 6 => '6' | 7 => '7' | 8 => '8' | 9 => '9'
  | 10 => 'A' | 11 => 'B' | 12 => 'C' | 13 => 'D' | 14 => 'E' | 15 => 'F'
  | _ => '0'

/-- UTF-8 bytes of a character (percent-encoding operates on the UTF-8 bytes
of the written text). -/
def utf8Char (c : Char) : List Nat :=
  if c.toNat < 0x80 then [c.toNat]
  else if c.toNat < 0x800 then [0xC0 + c.toNat / 64, 0x80 + c.toNat % 64]
  else if c.toNat < 0x10000 then
    [0xE0 + c.toNat / 4096, 0x80 + c.toNat / 64 % 64, 0x80 + c.toNat % 64]
  else
    [0xF0 + c.toNat / 262144, 0x80 + c.toNat / 4096 % 64,
     0x80 + c.toNat / 64 % 64, 0x80 + c.toNat % 64]

/-- UTF-8 bytes of a string. -/
def utf8Str (s : String) : List Nat := s.data.flatMap utf8Char

/-- Percent-encode one character. An unreserved character is a single ASCII
byte left as is; any other character has every UTF-8 byte written as `%XX`
(all bytes of a multi-byte character are ≥ 0x80, hence never unreserved, so
this per-character form agrees with the byte-wise `utf8_percent_encode`). -/
def pctEncodeChar (c : Char) : List Char :=
  if isUnresC c then [c]
  else (utf8Char c).flatMap (fun b => ['%', hexU (b / 16), hexU (b % 16)])

/-- `PercentEncoding::write_str`: percent-encode the whole string. -/
def percentEncode (s : String) : String := String.mk (s.data.flatMap pctEncodeChar)

/-! ### JSON-escaping + percent-encoding
(src/write.rs `EscapingPercentEncodingWrite`, escaping per `json_escape`) -/

/-- Lowercase hex digit (used in `\u00XX` control escapes). -/
def hexL : Nat → Char
  | 0 => '0' | 1 => '1' | 2 => '2' | 3 => '3' | 4 => '4'
  | 5 => '5' | 6 => '6' | 7 => '7' | 8 => '8' | 9 => '9'
  | 10 => 'a' | 11 => 'b' | 12 => 'c' | 13 => 'd' | 14 => 'e' | 15 => 'f'
  | _ => '0'

/-- The characters after the backslash of a control-character JSON escape
(`\b \t \n \f \r`, else `\u00XX`); the writer emits them unencoded since they
are unreserved. -/
def ctrlTail (n : Nat) : List Char :=
  if n = 8 then ['b']
  else if n = 9 then ['t']
  else if n = 10 then ['n']
  else if n = 12 then ['f']
  else if n = 13 then ['r']
  else ['u', '0', '0', hexL (n / 16), hexL (n % 16)]

/-- One character through `EscapingPercentEncodingWrite::write_str`:
JSON-escaped tokens get their backslash as `%5C` and their payload as the
precomputed `%22`/`%5C` (or raw control tail); literal spans are
percent-encoded as usual. -/
def escPEChar (c : Char) : List Char :=
  if c = '"' then ['%', '5', 'C', '%', '2', '2']
  else if c = '\\' then ['%', '5', 'C', '%', '5', 'C']
  else if c.toNat < 0x20 then ['%', '5', 'C'] ++ ctrlTail c.toNat
  else pctEncodeChar c

/-- `EscapingPercentEncodingWrite::write_str` on a whole string. -/
def escapePE (s : String) : String := String.mk (s.data.flatMap escPEChar)

/-! ### Structural helpers -/

/-- Join pieces with a separator (the streaming `is_first` pattern: the
separator is written before every piece except the first). -/
def joinSep (sep : String) : List String → String
  | [] => ""
  | [s] => s
  | s :: s2 :: rest => s ++ sep ++ joinSep sep (s2 :: rest)

/-- `WWrite::write_byte_array`: `[b0,b1,...]` with every structural token
percent-encoded and the byte values in plain decimal. -/
def byteArray (bs : List Nat) : String :=
  "%5B" ++ joinSep "%2C" (bs.map (fun b => String.mk (natDec b))) ++ "%5D"

/-! ### Key serialization (src/json.rs `KeySerializerNoQuotes`)

The same serializer is used at two writer instantiations: over a bare
`PercentEncoding` for top-level form keys (`esc = false`) and over the
`escape()` wrapper for JSON object keys (`esc = true`). String-like data goes
through the writer (hence escaped in the second case); numeric and boolean
data goes through `write_integer`/`write_bool`/`write_float`, which both
writers forward raw. -/

/-- Text of a string-like key under the two writer instantiations. -/
def strKey (esc : Bool) (s : String) : String :=
  if esc then escapePE s else percentEncode s

def keyRender (esc : Bool) : JValue → Except ErrorInner String
  | .vBool b => .ok (boolLit b)
  | .vInt _ n => .ok (intDec n)
  | .vI128 n => .ok (intDec n)
  | .vU128 n => .ok (intDec n)
  | .vFloat _ .nan => .error .FloatKeyMustBeFinite
  | .vFloat _ .inf => .error .FloatKeyMustBeFinite
  | .vFloat _ .neginf => .error .FloatKeyMustBeFinite
  | .vFloat _ (.fin s) => .ok s
  | .vChar c => .ok (strKey esc (String.mk [c]))
  | .vStr s => .ok (strKey esc s)
  | .vUnitVariant name => .ok (strKey esc name)
  | .vSome v => keyRender esc v
  | .vNewtypeStruct v => keyRender esc v
  | .vNone => .error (.KeyMustBeAString "Option::<T>::None")
  | .vUnit => .error (.KeyMustBeAString "()")
  | .vUnitStruct => .error (.KeyMustBeAString "UnitStruct")
  | .vBytes _ => .error (.KeyMustBeAString "bytes")
  | .vSeq _ => .error (.KeyMustBeAString "Seq")
  | .vTuple _ => .error (.KeyMustBeAString "Tuple")
  | .vTupleStruct _ => .error (.KeyMustBeAString "TupleStruct")
  | .vNewtypeVariant _ _ => .error (.KeyMustBeAString "NewtypeVariant")
  | .vTupleVariant _ _ => .error (.KeyMustBeAString "TupleVariant")
  | .vMap _ => .error (.KeyMustBeAString "Map")
  | .vStruct _ => .error (.KeyMustBeAString "struct")
  | .vStructVariant _ _ => .error (.KeyMustBeAString "StructVariant")

/-! ### The JSON sub-serializer (src/json.rs `JsonSerializer`)

`tl` is the `is_top_level_value` flag: set by the form serializer when the
value is the entire value of a pair, propagated unchanged through
`serialize_some` / `serialize_newtype_struct`, and cleared for everything
nested inside a compound. -/

mutual

def jsonValue (tl : Bool) : JValue → Except ErrorInner String
  | .vBool b => .ok (boolLit b)
  | .vInt _ n => .ok (intDec n)
  | .vI128 n => .ok (intDec n)
  | .vU128 n => .ok (intDec n)
  | .vFloat _ .nan => .ok "null"
  | .vFloat _ .inf => .ok "null"
  | .vFloat _ .neginf => .ok "null"
  | .vFloat _ (.fin s) => .ok s
  | .vChar c =>
      .ok (if tl then percentEncode (String.mk [c])
           else "%22" ++ escapePE (String.mk [c]) ++ "%22")
  | .vStr s =>
      .ok (if tl then percentEncode s else "%22" ++ escapePE s ++ "%22")
  | .vBytes bs => .ok (byteArray bs)
  | .vUnit => .ok "null"
  | .vNone => .ok "null"
  | .vUnitStruct => .ok "null"
  | .vSome v => jsonValue tl v
  | .vNewtypeStruct v => jsonValue tl v
  | .vUnitVariant name =>
      .ok (if tl then percentEncode name else "%22" ++ escapePE name ++ "%22")
  | .vSeq vs => do
      let rs ← renderList vs
      .ok ("%5B" ++ joinSep "%2C" rs ++ "%5D")
  | .vTuple vs => do
      let rs ← renderList vs
      .ok ("%5B" ++ joinSep "%2C" rs ++ "%5D")
  | .vTupleStruct vs => do
      let rs ← renderList vs
      .ok ("%5B" ++ joinSep "%2C" rs ++ "%5D")
  | .vMap es => do
      let rs ← renderEntries es
      .ok ("%7B" ++ joinSep "%2C" rs ++ "%7D")
  | .vStruct fs => do
      let rs ← renderFields fs
      .ok ("%7B" ++ joinSep "%2C" rs ++ "%7D")
  | .vNewtypeVariant name v => do
      let r ← jsonValue false v
      .ok ("%7B%22" ++ escapePE name ++ "%22%3A" ++ r ++ "%7D")
  | .vTupleVariant name vs => do
      let rs ← renderList vs
      .ok ("%7B%22" ++ escapePE name ++ "%22%3A%5B" ++ joinSep "%2C" rs ++ "%5D%7D")
  | .vStructVariant name fs => do
      let rs ← renderFields fs
      .ok ("%7B%22" ++ escapePE name ++ "%22%3A%7B" ++ joinSep "%2C" rs ++ "%7D%7D")

/-- `SeqSerializer`: elements rendered in order, joined by `%2C`. -/
def renderList : List JValue → Except ErrorInner (List String)
  | [] => .ok []
  | v :: rest => do
      let r ← jsonValue false v
      let rs ← renderList rest
      .ok (r :: rs)

/-- `MapSerializer` (JSON mode): each entry is quote, key through the
escaping key serializer, quote, colon, then the value. -/
def renderEntries : List (JValue × JValue) → Except ErrorInner (List String)
  | [] => .ok []
  | (k, v) :: rest => do
      let ks ← keyRender true k
      let vr ← jsonValue false v
      let rs ← renderEntries rest
      .ok (("%22" ++ ks ++ "%22%3A" ++ vr) :: rs)

/-- `StructSerializer` (JSON mode): a field is a map entry with a static
string key. -/
def renderFields : List (String × JValue) → Except ErrorInner (List String)
  | [] => .ok []
  | (k, v) :: rest => do
      let vr ← jsonValue false v
      let rs ← renderFields rest
      .ok (("%22" ++ escapePE k ++ "%22%3A" ++ vr) :: rs)

end

/-! ### The top-level form serializer (src/lib.rs `Serializer`) -/

/-- Top-level struct fields: key percent-encoded raw (never quoted), value
through the JSON sub-serializer in top-level-value mode. -/
def renderTopFields : List (String × JValue) → Except ErrorInner (List (String × String))
  | [] => .ok []
  | (k, v) :: rest => do
      let r ← jsonValue true v
      let rs ← renderTopFields rest
      .ok ((percentEncode k, r) :: rs)

/-- Top-level map entries: key through `KeySerializerNoQuotes` over a bare
`PercentEncoding`, value in top-level-value mode. -/
def renderTopEntries : List (JValue × JValue) → Except ErrorInner (List (String × String))
  | [] => .ok []
  | (k, v) :: rest => do
      let ks ← keyRender false k
      let r ← jsonValue true v
      let rs ← renderTopEntries rest
      .ok ((ks, r) :: rs)

/-- Pairs joined as `key=value`, `&`-separated. -/
def pairsOut (ps : List (String × String)) : String :=
  joinSep "&" (ps.map (fun p => p.1 ++ "=" ++ p.2))

/-- The root dispatch of `impl serde::Serializer for Serializer<W>`:
maps/structs stream pairs; unit-likes write the empty string; `Some` and
newtype structs are transparent; data-carrying variants become a single pair;
everything else hits the `error_unsupported!` arms with `NotAnObject`.
`serialize_i128`/`serialize_u128` are not overridden here, so serde's default
implementations reject them with a custom message. -/
def serializeRoot : JValue → Except ErrorInner String
  | .vStruct fs => (renderTopFields fs).map pairsOut
  | .vMap es => (renderTopEntries es).map pairsOut
  | .vUnit => .ok ""
  | .vNone => .ok ""
  | .vUnitStruct => .ok ""
  | .vSome v => serializeRoot v
  | .vNewtypeStruct v => serializeRoot v
  | .vNewtypeVariant name v => do
      let r ← jsonValue true v
      .ok (percentEncode name ++ "=" ++ r)
  | .vTupleVariant name vs => do
      let rs ← renderList vs
      .ok (percentEncode name ++ "=" ++ ("%5B" ++ joinSep "%2C" rs ++ "%5D"))
  | .vStructVariant name fs => do
      let rs ← renderFields fs
      .ok (percentEncode name ++ "=" ++ ("%7B" ++ joinSep "%2C" rs ++ "%7D"))
  | .vBool _ => .error (.NotAnObject "bool")
  | .vInt w _ => .error (.NotAnObject w.name)
  | .vI128 _ => .error (.Message "i128 is not supported")
  | .vU128 _ => .error (.Message "u128 is not supported")
  | .vFloat w _ => .error (.NotAnObject w.name)
  | .vChar _ => .error (.NotAnObject "char")
  | .vStr _ => .error (.NotAnObject "str")
  | .vBytes _ => .error (.NotAnObject "bytes")
  | .vUnitVariant _ => .error (.NotAnObject "UnitVariant")
  | .vSeq _ => .error (.NotAnObject "Seq")
  | .vTuple _ => .error (.NotAnObject "Tuple")
  | .vTupleStruct _ => .error (.NotAnObject "TupleStruct")

/-- `to_writer`: stream into a caller-owned sink; the sink's prior contents
stay in front. -/
def to_writer (w : String) (v : JValue) : Except ErrorInner String :=
  (serializeRoot v).map (fun out => w ++ out)

/-- `to_string`: allocate a fresh empty sink and stream into it. -/
def to_string (v : JValue) : Except ErrorInner String := to_writer "" v

/-- `to_vec`: `to_string` then `String::into` (the UTF-8 bytes). -/
def to_vec (v : JValue) : Except ErrorInner (List Nat) :=
  (to_string v).map utf8Str

/-- Characters `ryu::Buffer::format_finite` can produce: digits, sign,
decimal point, exponent marker. -/
def isRyuChar (c : Char) : Bool :=
  c.isDigit || c == '.' || c == '-' || c == 'e' || c == 'E'

/-! ### Decode procedure, modelled from the spec's words (§8): split the
output on &, split each pair on =, percent-decode each key and value, and
JSON-parse each decoded value. These definitions are spec-side: the crate is
encode-only and ships no decoder. -/

/-- Split on a separator character (every occurrence). -/
def splitSep (sep : Char) : List Char → List (List Char)
  | [] => [[]]
  | c :: rest =>
    if c = sep then [] :: splitSep sep rest
    else
      match splitSep sep rest with
      | [] => [[c]]
      | g :: gs => (c :: g) :: gs

/-- Split a pair on its first `=` into key part and value part. -/
def splitEq : List Char → Option (List Char × List Char)
  | [] => none
  | c :: rest =>
    if c = '=' then some ([], rest)
    else (splitEq rest).map (fun p => (c :: p.1, p.2))

/-- Value of one hex digit (either case accepted when decoding). -/
def hexVal (c : Char) : Option Nat :=
  if c.isDigit then some (c.toNat - 48)
  else if 'A' ≤ c && c ≤ 'F' then some (c.toNat - 55)
  else if 'a' ≤ c && c ≤ 'f' then some (c.toNat - 87)
  else none

mutual

/-- Percent-decode to bytes: a `%XX` triple yields the byte `XX`; any other
character stands for its own code point (the encoder only leaves ASCII
unencoded, so this reads back exactly what it wrote). -/
def percentDecodeB : List Char → Option (List Nat)
  | [] => some []
  | c :: rest =>
    if c = '%' then pctTriple rest
    else (percentDecodeB rest).map (c.toNat :: ·)

/-- The two hex digits following a percent sign, then the remainder. -/
def pctTriple : List Char → Option (List Nat)
  | a :: b :: rest2 => do
      let x ← hexVal a
      let y ← hexVal b
      let r ← percentDecodeB rest2
      some ((16 * x + y) :: r)
  | _ => none

end

/-- A UTF-8 continuation byte. -/
def isContB (b : Nat) : Bool := 0x80 ≤ b && b < 0xC0

mutual

/-- Decode a UTF-8 byte sequence back to characters. -/
def utf8Decode : List Nat → Option (List Char)
  | [] => some []
  | b :: rest =>
    if b < 0x80 then (utf8Decode rest).map (Char.ofNat b :: ·)
    else if b < 0xC0 then none
    else if b < 0xE0 then utf8Dec2 b rest
    else if b < 0xF0 then utf8Dec3 b rest
    else if b < 0xF8 then utf8Dec4 b rest
    else none

/-- Decode the continuation of a two-byte sequence led by `b`. -/
def utf8Dec2 (b : Nat) : List Nat → Option (List Char)
  | b1 :: rest =>
      if isContB b1 then
        (utf8Decode rest).map (Char.ofNat ((b - 0xC0) * 64 + (b1 - 0x80)) :: ·)
      else none
  | [] => none

/-- Decode the continuation of a three-byte sequence led by `b`. -/
def utf8Dec3 (b : Nat) : List Nat → Option (List Char)
  | b1 :: b2 :: rest =>
      if isContB b1 && isContB b2 then
        (utf8Decode rest).map
          (Char.ofNat ((b - 0xE0) * 4096 + (b1 - 0x80) * 64 + (b2 - 0x80)) :: ·)
      else none
  | _ => none

/-- Decode the continuation of a four-byte sequence led by `b`. -/
def utf8Dec4 (b : Nat) : List Nat → Option (List Char)
  | b1 :: b2 :: b3 :: rest =>
      if (isContB b1 && isContB b2) && isContB b3 then
        (utf8Decode rest).map
          (Char.ofNat ((b - 0xF0) * 262144 + (b1 - 0x80) * 4096 +
            (b2 - 0x80) * 64 + (b3 - 0x80)) :: ·)
      else none
  | _ => none

end

/-- Result of JSON-parsing one scalar value segment. -/
inductive JsonScalar where
  | null
  | jbool (b : Bool)
  | jint (n : Int)
  | jnum (tok : String)
deriving DecidableEq

/-- Accumulate decimal digits left to right. -/
def parseNatAcc (acc : Nat) : List Char → Nat
  | [] => acc
  | c :: rest => parseNatAcc (acc * 10 + (c.toNat - 48)) rest

/-- A JSON integer token: optional minus then one-or-more digits. -/
def parseIntTok (l : List Char) : Option Int :=
  match l with
  | [] => none
  | c :: ds =>
    if c = '-' then
      if ds ≠ [] ∧ ds.all Char.isDigit then some (-(parseNatAcc 0 ds : Int)) else none
    else
      if (c :: ds).all Char.isDigit then some ((parseNatAcc 0 (c :: ds) : Nat) : Int)
      else none

def dropDigits (l : List Char) : List Char := l.dropWhile Char.isDigit

def headIsDigit (l : List Char) : Bool :=
  match l with
  | c :: _ => c.isDigit
  | [] => false

/-- Consume the integer part of a JSON number (`0` or a nonzero digit run). -/
def numIntRest (l : List Char) : Option (List Char) :=
  match l with
  | '0' :: r => some r
  | c :: r => if c.isDigit then some (dropDigits r) else none
  | [] => none

/-- Consume an optional fraction part (`.` then one-or-more digits). -/
def numFracRest (l : List Char) : Option (List Char) :=
  match l with
  | '.' :: r => if headIsDigit r then some (dropDigits r) else none
  | _ => some l

/-- Consume an optional exponent part (`e`/`E`, optional sign, digits). -/
def numExpRest (l : List Char) : Option (List Char) :=
  match l with
  | c :: r =>
      if c = 'e' ∨ c = 'E' then
        let r2 := match r with
          | s :: r3 => if s = '+' ∨ s = '-' then r3 else s :: r3
          | [] => []
        if headIsDigit r2 then some (dropDigits r2) else none
      else some (c :: r)
  | [] => some []

/-- The RFC 8259 number grammar as a recognizer. -/
def jsonNumTok (l : List Char) : Bool :=
  let l1 := match l with | '-' :: r => r | _ => l
  match numIntRest l1 with
  | none => false
  | some r1 =>
    match numFracRest r1 with
    | none => false
    | some r2 =>
      match numExpRest r2 with
      | none => false
      | some r3 => r3 = []

/-- JSON-parse a scalar: the three keyword literals, else an integer, else
any other number token (kept as its text), else failure. -/
def jsonParseScalar (s : String) : Option JsonScalar :=
  if s = "null" then some .null
  else if s = "true" then some (.jbool true)
  else if s = "false" then some (.jbool false)
  else
    match parseIntTok s.data with
    | some n => some (.jint n)
    | none => if jsonNumTok s.data then some (.jnum s) else none

/-- Decode one `key=value` piece: split at the first `=`, percent-decode and
UTF-8-decode the key, percent-decode, UTF-8-decode and JSON-parse the value. -/
def decodePair (piece : List Char) : Option (List Char × JsonScalar) := do
  let kv ← splitEq piece
  let kb ← percentDecodeB kv.1
  let ks ← utf8Decode kb
  let vb ← percentDecodeB kv.2
  let vs ← utf8Decode vb
  let j ← jsonParseScalar (String.mk vs)
  some (ks, j)

/-- The spec's full decode procedure over a whole output body. -/
def decodeForm (out : String) : Option (List (List Char × JsonScalar)) :=
  (splitSep '&' out.data).mapM decodePair

/-- The scalar field shapes for which the decode procedure is claimed:
booleans, integers, the unit-likes, and floats whose finite rendering is a
JSON number token that is not an integer token (as ryu output always is). -/
def scalarRoundOk : JValue → Bool
  | .vBool _ => true
  | .vInt _ _ => true
  | .vI128 _ => true
  | .vU128 _ => true
  | .vUnit => true
  | .vNone => true
  | .vUnitStruct => true
  | .vFloat _ .nan => true
  | .vFloat _ .inf => true
  | .vFloat _ .neginf => true
  | .vFloat _ (.fin s) =>
      jsonNumTok s.data && (parseIntTok s.data).isNone && s.data.all isRyuChar
  | _ => false

/-- The JSON scalar a scalar field value reads back as: exact for booleans
and integers; unit, None, unit structs and non-finite floats all read back
as null; a finite float reads back as its number token. -/
def scalarJsonD : JValue → JsonScalar
  | .vBool b => .jbool b
  | .vInt _ n => .jint n
  | .vI128 n => .jint n
  | .vU128 n => .jint (Int.ofNat n)
  | .vFloat _ (.fin s) => .jnum s
  | _ => .null

/-! ### Output-shape predicates (for the wire-format invariant) -/

/-- Uppercase hex digit character (the form `percent_encoding` emits). -/
def isHexUC (c : Char) : Bool := c.isDigit || ('A' ≤ c && c ≤ 'F')

/-- A character list made only of unreserved characters and complete `%XX`
triples: the shape of everything the writers emit for key and value content.
A raw `&` or `=` can never occur in such a list. -/
inductive CleanL : List Char → Prop where
  | nil : CleanL []
  | unres {c : Char} {rest : List Char} :
      isUnresC c = true → CleanL rest → CleanL (c :: rest)
  | pct {a b : Char} {rest : List Char} :
      isHexUC a = true → isHexUC b = true → CleanL rest →
      CleanL ('%' :: a :: b :: rest)

/-- A finite float's carried rendering consists of ryu output characters
(trivially true of anything `format_finite` returns). -/
def finiteRendersOk : FloatV → Bool
  | .fin s => s.data.all isRyuChar
  | _ => true

mutual

/-- Every float rendering reachable in the value is well-formed ryu output. -/
def validFloats : JValue → Bool
  | .vFloat _ x => finiteRendersOk x
  | .vSome v => validFloats v
  | .vNewtypeStruct v => validFloats v
  | .vNewtypeVariant _ v => validFloats v
  | .vSeq vs => validFloatsList vs
  | .vTuple vs => validFloatsList vs
  | .vTupleStruct vs => validFloatsList vs
  | .vTupleVariant _ vs => validFloatsList vs
  | .vMap es => validFloatsEntries es
  | .vStruct fs => validFloatsFields fs
  | .vStructVariant _ fs => validFloatsFields fs
  | _ => true

def validFloatsList : List JValue → Bool
  | [] => true
  | v :: rest => validFloats v && validFloatsList rest

def validFloatsEntries : List (JValue × JValue) → Bool
  | [] => true
  | (k, v) :: rest => validFloats k && validFloats v && validFloatsEntries rest

def validFloatsFields : List (String × JValue) → Bool
  | [] => true
  | (_, v) :: rest => validFloats v && validFloatsFields rest

end

/-! ## Theorems -/

/-! ### Cleanliness of the writer layers -/

theorem cleanL_append {l1 l2 : List Char} (h1 : CleanL l1) (h2 : CleanL l2) :
    CleanL (l1 ++ l2) := by
  induction h1 with
  | nil => exact h2
  | unres hc _ ih => exact CleanL.unres hc ih
  | pct ha hb _ ih => exact CleanL.pct ha hb ih

theorem cleanL_of_unres {l : List Char} (h : ∀ c ∈ l, isUnresC c = true) : CleanL l := by
  induction l with
  | nil => exact CleanL.nil
  | cons c rest ih =>
      exact CleanL.unres (h c (by simp)) (ih fun x hx => h x (by simp [hx]))

theorem hexU_isHex (n : Nat) : isHexUC (hexU n) = true := by
  unfold hexU; split <;> decide

theorem hexL_unres (n : Nat) : isUnresC (hexL n) = true := by
  unfold hexL; split <;> decide

theorem cleanL_flatMap {α : Type} {l : List α} {f : α → List Char}
    (h : ∀ c ∈ l, CleanL (f c)) : CleanL (l.flatMap f) := by
  induction l with
  | nil => exact CleanL.nil
  | cons c rest ih =>
      simpa using cleanL_append (h c (by simp)) (ih fun x hx => h x (by simp [hx]))

theorem clean_pctEncodeChar (c : Char) : CleanL (pctEncodeChar c) := by
  unfold pctEncodeChar
  split
  · exact CleanL.unres (by assumption) CleanL.nil
  · exact cleanL_flatMap fun b _ => CleanL.pct (hexU_isHex _) (hexU_isHex _) CleanL.nil

theorem clean_percentEncode (s : String) : CleanL (percentEncode s).data :=
  cleanL_flatMap fun c _ => clean_pctEncodeChar c

theorem clean_ctrlTail (n : Nat) : CleanL (ctrlTail n) := by
  unfold ctrlTail
  repeat' split
  all_goals
    refine cleanL_of_unres ?_
  all_goals
    intro c hc
  all_goals
    simp only [List.mem_cons, List.mem_singleton, List.not_mem_nil, or_false] at hc
  all_goals
    first
      | (rcases hc with rfl | rfl | rfl | rfl | rfl
         · decide
         · decide
         · decide
         · exact hexL_unres _
         · exact hexL_unres _)
      | (subst hc; decide)

theorem clean_escPEChar (c : Char) : CleanL (escPEChar c) := by
  unfold escPEChar
  repeat' split
  · exact CleanL.pct (by decide) (by decide) (CleanL.pct (by decide) (by decide) CleanL.nil)
  · exact CleanL.pct (by decide) (by decide) (CleanL.pct (by decide) (by decide) CleanL.nil)
  · exact CleanL.pct (by decide) (by decide) (clean_ctrlTail _)
  · exact clean_pctEncodeChar c

theorem clean_escapePE (s : String) : CleanL (escapePE s).data :=
  cleanL_flatMap fun c _ => clean_escPEChar c

theorem natDecCore_digits : ∀ (fuel n : Nat), ∀ c ∈ natDecCore fuel n, c.isDigit = true := by
  intro fuel
  induction fuel with
  | zero => intro n c hc; simp [natDecCore] at hc
  | succ f ih =>
      intro n c hc
      rw [natDecCore] at hc
      split at hc
      · simp only [List.mem_singleton] at hc
        subst hc
        unfold digitChar; split <;> decide
      · rcases List.mem_append.mp hc with h | h
        · exact ih _ c h
        · simp only [List.mem_singleton] at h
          subst h
          unfold digitChar; split <;> decide

theorem clean_intDec (n : Int) : CleanL (intDec n).data := by
  unfold intDec
  split <;> refine cleanL_of_unres ?_
  · intro c hc
    simp only [List.mem_cons] at hc
    rcases hc with rfl | hc
    · decide
    · have := natDecCore_digits _ _ c hc
      simp [isUnresC, Char.isAlphanum, this]
  · intro c hc
    have := natDecCore_digits _ _ c hc
    simp [isUnresC, Char.isAlphanum, this]

theorem clean_joinSep (sep : String) :
    ∀ parts : List String, CleanL sep.data → (∀ p ∈ parts, CleanL p.data) →
      CleanL (joinSep sep parts).data
  | [] => by intro _ _; exact CleanL.nil
  | [s] => by
      intro _ h
      simpa [joinSep] using h s (by simp)
  | s :: s2 :: rest => by
      intro hsep h
      rw [joinSep, String.data_append, String.data_append]
      exact cleanL_append (cleanL_append (h s (by simp)) hsep)
        (clean_joinSep sep (s2 :: rest) hsep (fun p hp => h p (by simp [hp])))

theorem clean_boolLit (b : Bool) : CleanL (boolLit b).data := by
  cases b <;> exact cleanL_of_unres (by decide)

theorem clean_null : CleanL ("null" : String).data := cleanL_of_unres (by decide)

theorem clean_byteArray (bs : List Nat) : CleanL (byteArray bs).data := by
  unfold byteArray
  rw [String.data_append, String.data_append]
  refine cleanL_append (cleanL_append (by exact CleanL.pct (by decide) (by decide) CleanL.nil) ?_)
    (by exact CleanL.pct (by decide) (by decide) CleanL.nil)
  refine clean_joinSep _ _ (CleanL.pct (by decide) (by decide) CleanL.nil) ?_
  intro p hp
  rcases List.mem_map.mp hp with ⟨b, _, rfl⟩
  refine cleanL_of_unres ?_
  intro c hc
  have := natDecCore_digits _ _ c hc
  simp [isUnresC, Char.isAlphanum, this]

theorem ryu_unres {c : Char} (h : isRyuChar c = true) : isUnresC c = true := by
  simp only [isRyuChar, Bool.or_eq_true, beq_iff_eq] at h
  rcases h with ((((h | rfl) | rfl) | rfl) | rfl)
  · simp [isUnresC, Char.isAlphanum, h]
  all_goals decide

theorem clean_strKey (esc : Bool) (s : String) : CleanL (strKey esc s).data := by
  unfold strKey
  split
  · exact clean_escapePE s
  · exact clean_percentEncode s

theorem keyRender_clean :
    ∀ (v : JValue) (esc : Bool) (s : String), validFloats v = true →
      keyRender esc v = .ok s → CleanL s.data
  | .vBool b, esc, s, _, h => by
      cases b <;> simp [keyRender, boolLit] at h <;> subst h <;>
        exact cleanL_of_unres (by decide)
  | .vInt w n, esc, s, _, h => by
      simp [keyRender] at h; subst h; exact clean_intDec n
  | .vI128 n, esc, s, _, h => by
      simp [keyRender] at h; subst h; exact clean_intDec n
  | .vU128 n, esc, s, _, h => by
      simp [keyRender] at h; subst h; exact clean_intDec (Int.ofNat n)
  | .vFloat w x, esc, s, hv, h => by
      cases x with
      | fin r =>
          simp [keyRender] at h; subst h
          simp [validFloats, finiteRendersOk, List.all_eq_true] at hv
          exact cleanL_of_unres fun c hc => ryu_unres (hv c hc)
      | nan => simp [keyRender] at h
      | inf => simp [keyRender] at h
      | neginf => simp [keyRender] at h
  | .vChar c, esc, s, _, h => by
      simp [keyRender] at h; subst h; exact clean_strKey _ _
  | .vStr str, esc, s, _, h => by
      simp [keyRender] at h; subst h; exact clean_strKey _ _
  | .vUnitVariant name, esc, s, _, h => by
      simp [keyRender] at h; subst h; exact clean_strKey _ _
  | .vSome v, esc, s, hv, h =>
      keyRender_clean v esc s (by simpa [validFloats] using hv) (by simpa [keyRender] using h)
  | .vNewtypeStruct v, esc, s, hv, h =>
      keyRender_clean v esc s (by simpa [validFloats] using hv) (by simpa [keyRender] using h)
  | .vNone, esc, s, _, h => by simp [keyRender] at h
  | .vUnit, esc, s, _, h => by simp [keyRender] at h
  | .vUnitStruct, esc, s, _, h => by simp [keyRender] at h
  | .vBytes _, esc, s, _, h => by simp [keyRender] at h
  | .vSeq _, esc, s, _, h => by simp [keyRender] at h
  | .vTuple _, esc, s, _, h => by simp [keyRender] at h
  | .vTupleStruct _, esc, s, _, h => by simp [keyRender] at h
  | .vNewtypeVariant _ _, esc, s, _, h => by simp [keyRender] at h
  | .vTupleVariant _ _, esc, s, _, h => by simp [keyRender] at h
  | .vMap _, esc, s, _, h => by simp [keyRender] at h
  | .vStruct _, esc, s, _, h => by simp [keyRender] at h
  | .vStructVariant _ _, esc, s, _, h => by simp [keyRender] at h

theorem clean_wrap (pre post body : String) (hpre : CleanL pre.data)
    (hpost : CleanL post.data) (hb : CleanL body.data) :
    CleanL (pre ++ body ++ post).data := by
  rw [String.data_append, String.data_append]
  exact cleanL_append (cleanL_append hpre hb) hpost

theorem clean_pct_tok {a b : Char} (ha : isHexUC a = true) (hb : isHexUC b = true) :
    CleanL ['%', a, b] := CleanL.pct ha hb CleanL.nil

theorem clean_quoted (body : String) (hb : CleanL body.data) :
    CleanL ("%22" ++ body ++ "%22").data :=
  clean_wrap _ _ _ (clean_pct_tok (by decide) (by decide))
    (clean_pct_tok (by decide) (by decide)) hb

mutual

theorem jsonValue_clean :
    ∀ (v : JValue) (tl : Bool) (s : String), validFloats v = true →
      jsonValue tl v = .ok s → CleanL s.data
  | .vBool b, tl, s, _, h => by
      simp [jsonValue] at h; subst h; exact clean_boolLit b
  | .vInt w n, tl, s, _, h => by
      simp [jsonValue] at h; subst h; exact clean_intDec n
  | .vI128 n, tl, s, _, h => by
      simp [jsonValue] at h; subst h; exact clean_intDec n
  | .vU128 n, tl, s, _, h => by
      simp [jsonValue] at h; subst h; exact clean_intDec (Int.ofNat n)
  | .vFloat w x, tl, s, hv, h => by
      cases x with
      | fin r =>
          simp [jsonValue] at h; subst h
          simp [validFloats, finiteRendersOk, List.all_eq_true] at hv
          exact cleanL_of_unres fun c hc => ryu_unres (hv c hc)
      | nan => simp [jsonValue] at h; subst h; exact clean_null
      | inf => simp [jsonValue] at h; subst h; exact clean_null
      | neginf => simp [jsonValue] at h; subst h; exact clean_null
  | .vChar c, tl, s, _, h => by
      simp [jsonValue] at h; subst h
      cases tl with
      | true => simpa using clean_percentEncode (String.mk [c])
      | false => simpa using clean_quoted _ (clean_escapePE (String.mk [c]))
  | .vStr str, tl, s, _, h => by
      simp [jsonValue] at h; subst h
      cases tl with
      | true => simpa using clean_percentEncode str
      | false => simpa using clean_quoted _ (clean_escapePE str)
  | .vBytes bs, tl, s, _, h => by
      simp [jsonValue] at h; subst h; exact clean_byteArray bs
  | .vUnit, tl, s, _, h => by simp [jsonValue] at h; subst h; exact clean_null
  | .vNone, tl, s, _, h => by simp [jsonValue] at h; subst h; exact clean_null
  | .vUnitStruct, tl, s, _, h => by simp [jsonValue] at h; subst h; exact clean_null
  | .vSome v, tl, s, hv, h =>
      jsonValue_clean v tl s (by simpa [validFloats] using hv)
        (by simpa [jsonValue] using h)
  | .vNewtypeStruct v, tl, s, hv, h =>
      jsonValue_clean v tl s (by simpa [validFloats] using hv)
        (by simpa [jsonValue] using h)
  | .vUnitVariant name, tl, s, _, h => by
      simp [jsonValue] at h; subst h
      cases tl with
      | true => simpa using clean_percentEncode name
      | false => simpa using clean_quoted _ (clean_escapePE name)
  | .vSeq vs, tl, s, hv, h => by
      rw [jsonValue] at h
      cases hrs : renderList vs with
      | error e => rw [hrs] at h; exact Except.noConfusion h
      | ok rs =>
          simp only [hrs, Except.bind] at h
          injection h with h; subst h
          refine clean_wrap _ _ _ (clean_pct_tok (by decide) (by decide))
            (clean_pct_tok (by decide) (by decide)) ?_
          refine clean_joinSep _ _ (clean_pct_tok (by decide) (by decide)) ?_
          exact renderList_clean vs rs (by simpa [validFloats] using hv) hrs
  | .vTuple vs, tl, s, hv, h => by
      rw [jsonValue] at h
      cases hrs : renderList vs with
      | error e => rw [hrs] at h; exact Except.noConfusion h
      | ok rs =>
          simp only [hrs, Except.bind] at h
          injection h with h; subst h
          refine clean_wrap _ _ _ (clean_pct_tok (by decide) (by decide))
            (clean_pct_tok (by decide) (by decide)) ?_
          refine clean_joinSep _ _ (clean_pct_tok (by decide) (by decide)) ?_
          exact renderList_clean vs rs (by simpa [validFloats] using hv) hrs
  | .vTupleStruct vs, tl, s, hv, h => by
      rw [jsonValue] at h
      cases hrs : renderList vs with
      | error e => rw [hrs] at h; exact Except.noConfusion h
      | ok rs =>
          simp only [hrs, Except.bind] at h
          injection h with h; subst h
          refine clean_wrap _ _ _ (clean_pct_tok (by decide) (by decide))
            (clean_pct_tok (by decide) (by decide)) ?_
          refine clean_joinSep _ _ (clean_pct_tok (by decide) (by decide)) ?_
          exact renderList_clean vs rs (by simpa [validFloats] using hv) hrs
  | .vMap es, tl, s, hv, h => by
      rw [jsonValue] at h
      cases hrs : renderEntries es with
      | error e => rw [hrs] at h; exact Except.noConfusion h
      | ok rs =>
          simp only [hrs, Except.bind] at h
          injection h with h; subst h
          refine clean_wrap _ _ _ (clean_pct_tok (by decide) (by decide))
            (clean_pct_tok (by decide) (by decide)) ?_
          refine clean_joinSep _ _ (clean_pct_tok (by decide) (by decide)) ?_
          exact renderEntries_clean es rs (by simpa [validFloats] using hv) hrs
  | .vStruct fs, tl, s, hv, h => by
      rw [jsonValue] at h
      cases hrs : renderFields fs with
      | error e => rw [hrs] at h; exact Except.noConfusion h
      | ok rs =>
          simp only [hrs, Except.bind] at h
          injection h with h; subst h
          refine clean_wrap _ _ _ (clean_pct_tok (by decide) (by decide))
            (clean_pct_tok (by decide) (by decide)) ?_
          refine clean_joinSep _ _ (clean_pct_tok (by decide) (by decide)) ?_
          exact renderFields_clean fs rs (by simpa [validFloats] using hv) hrs
  | .vNewtypeVariant name v, tl, s, hv, h => by
      rw [jsonValue] at h
      cases hr : jsonValue false v with
      | error e => rw [hr] at h; exact Except.noConfusion h
      | ok r =>
          simp only [hr, Except.bind] at h
          injection h with h; subst h
          rw [show "%7B%22" ++ escapePE name ++ "%22%3A" ++ r ++ "%7D" =
            ("%7B%22" ++ escapePE name ++ "%22%3A") ++ r ++ "%7D" by
              simp [String.append_assoc]]
          refine clean_wrap _ _ _ ?_ (clean_pct_tok (by decide) (by decide))
            (jsonValue_clean v false r (by simpa [validFloats] using hv) hr)
          rw [String.data_append, String.data_append]
          refine cleanL_append (cleanL_append ?_ (clean_escapePE name)) ?_
          · exact cleanL_append (clean_pct_tok (by decide) (by decide))
              (clean_pct_tok (by decide) (by decide))
          · exact cleanL_append (clean_pct_tok (by decide) (by decide))
              (clean_pct_tok (by decide) (by decide))
  | .vTupleVariant name vs, tl, s, hv, h => by
      rw [jsonValue] at h
      cases hrs : renderList vs with
      | error e => rw [hrs] at h; exact Except.noConfusion h
      | ok rs =>
          simp only [hrs, Except.bind] at h
          injection h with h; subst h
          rw [show "%7B%22" ++ escapePE name ++ "%22%3A%5B" ++ joinSep "%2C" rs ++ "%5D%7D" =
            ("%7B%22" ++ escapePE name ++ "%22%3A%5B") ++ joinSep "%2C" rs ++ "%5D%7D" by
              simp [String.append_assoc]]
          refine clean_wrap _ _ _ ?_ ?_ ?_
          · rw [String.data_append, String.data_append]
            refine cleanL_append (cleanL_append ?_ (clean_escapePE name)) ?_
            · exact cleanL_append (clean_pct_tok (by decide) (by decide))
                (clean_pct_tok (by decide) (by decide))
            · refine cleanL_append (clean_pct_tok (by decide) (by decide)) ?_
              exact cleanL_append (clean_pct_tok (by decide) (by decide))
                (clean_pct_tok (by decide) (by decide))
          · exact cleanL_append (clean_pct_tok (by decide) (by decide))
              (clean_pct_tok (by decide) (by decide))
          · refine clean_joinSep _ _ (clean_pct_tok (by decide) (by decide)) ?_
            exact renderList_clean vs rs (by simpa [validFloats] using hv) hrs
  | .vStructVariant name fs, tl, s, hv, h => by
      rw [jsonValue] at h
      cases hrs : renderFields fs with
      | error e => rw [hrs] at h; exact Except.noConfusion h
      | ok rs =>
          simp only [hrs, Except.bind] at h
          injection h with h; subst h
          rw [show "%7B%22" ++ escapePE name ++ "%22%3A%7B" ++ joinSep "%2C" rs ++ "%7D%7D" =
            ("%7B%22" ++ escapePE name ++ "%22%3A%7B") ++ joinSep "%2C" rs ++ "%7D%7D" by
              simp [String.append_assoc]]
          refine clean_wrap _ _ _ ?_ ?_ ?_
          · rw [String.data_append, String.data_append]
            refine cleanL_append (cleanL_append ?_ (clean_escapePE name)) ?_
            · exact cleanL_append (clean_pct_tok (by decide) (by decide))
                (clean_pct_tok (by decide) (by decide))
            · refine cleanL_append (clean_pct_tok (by decide) (by decide)) ?_
              exact cleanL_append (clean_pct_tok (by decide) (by decide))
                (clean_pct_tok (by decide) (by decide))
          · exact cleanL_append (clean_pct_tok (by decide) (by decide))
              (clean_pct_tok (by decide) (by decide))
          · refine clean_joinSep _ _ (clean_pct_tok (by decide) (by decide)) ?_
            exact renderFields_clean fs rs (by simpa [validFloats] using hv) hrs
termination_by v _ _ _ _ => sizeOf v

theorem renderList_clean :
    ∀ (vs : List JValue) (rs : List String), validFloatsList vs = true →
      renderList vs = .ok rs → ∀ r ∈ rs, CleanL r.data
  | [], rs, _, h => by
      simp [renderList] at h; subst h; simp
  | v :: rest, rs, hv, h => by
      rw [renderList] at h
      simp only [validFloatsList, Bool.and_eq_true] at hv
      cases hr : jsonValue false v with
      | error e => rw [hr] at h; exact Except.noConfusion h
      | ok r =>
          simp only [hr, Except.bind] at h
          cases hrest : renderList rest with
          | error e => rw [hrest] at h; exact Except.noConfusion h
          | ok rs2 =>
              simp only [hrest, Except.bind] at h
              injection h with h; subst h
              intro x hx
              rcases List.mem_cons.mp hx with rfl | hx
              · exact jsonValue_clean v false x hv.1 hr
              · exact renderList_clean rest rs2 hv.2 hrest x hx
termination_by vs _ _ _ => sizeOf vs

theorem renderEntries_clean :
    ∀ (es : List (JValue × JValue)) (rs : List String),
      validFloatsEntries es = true → renderEntries es = .ok rs →
      ∀ r ∈ rs, CleanL r.data
  | [], rs, _, h => by
      simp [renderEntries] at h; subst h; simp
  | (k, v) :: rest, rs, hv, h => by
      rw [renderEntries] at h
      simp only [validFloatsEntries, Bool.and_eq_true] at hv
      cases hk : keyRender true k with
      | error e => rw [hk] at h; exact Except.noConfusion h
      | ok ks =>
          simp only [hk, Except.bind] at h
          cases hr : jsonValue false v with
          | error e => rw [hr] at h; exact Except.noConfusion h
          | ok r =>
              simp only [hr, Except.bind] at h
              cases hrest : renderEntries rest with
              | error e => rw [hrest] at h; exact Except.noConfusion h
              | ok rs2 =>
                  simp only [hrest, Except.bind] at h
                  injection h with h; subst h
                  intro x hx
                  rcases List.mem_cons.mp hx with rfl | hx
                  · rw [show "%22" ++ ks ++ "%22%3A" ++ r =
                      ("%22" ++ ks ++ "%22%3A") ++ r by simp [String.append_assoc]]
                    rw [String.data_append]
                    refine cleanL_append ?_
                      (jsonValue_clean v false r hv.1.2 hr)
                    rw [String.data_append, String.data_append]
                    refine cleanL_append (cleanL_append
                      (clean_pct_tok (by decide) (by decide))
                      (keyRender_clean k true ks hv.1.1 hk)) ?_
                    exact cleanL_append (clean_pct_tok (by decide) (by decide))
                      (clean_pct_tok (by decide) (by decide))
                  · exact renderEntries_clean rest rs2 hv.2 hrest x hx
termination_by es _ _ _ => sizeOf es

theorem renderFields_clean :
    ∀ (fs : List (String × JValue)) (rs : List String),
      validFloatsFields fs = true → renderFields fs = .ok rs →
      ∀ r ∈ rs, CleanL r.data
  | [], rs, _, h => by
      simp [renderFields] at h; subst h; simp
  | (k, v) :: rest, rs, hv, h => by
      rw [renderFields] at h
      simp only [validFloatsFields, Bool.and_eq_true] at hv
      cases hr : jsonValue false v with
      | error e => rw [hr] at h; exact Except.noConfusion h
      | ok r =>
          simp only [hr, Except.bind] at h
          cases hrest : renderFields rest with
          | error e => rw [hrest] at h; exact Except.noConfusion h
          | ok rs2 =>
              simp only [hrest, Except.bind] at h
              injection h with h; subst h
              intro x hx
              rcases List.mem_cons.mp hx with rfl | hx
              · rw [show "%22" ++ escapePE k ++ "%22%3A" ++ r =
                  ("%22" ++ escapePE k ++ "%22%3A") ++ r by simp [String.append_assoc]]
                rw [String.data_append]
                refine cleanL_append ?_ (jsonValue_clean v false r hv.1 hr)
                rw [String.data_append, String.data_append]
                refine cleanL_append (cleanL_append
                  (clean_pct_tok (by decide) (by decide)) (clean_escapePE k)) ?_
                exact cleanL_append (clean_pct_tok (by decide) (by decide))
                  (clean_pct_tok (by decide) (by decide))
              · exact renderFields_clean rest rs2 hv.2 hrest x hx
termination_by fs _ _ _ => sizeOf fs

end

theorem renderTopFields_clean :
    ∀ (fs : List (String × JValue)) (ps : List (String × String)),
      validFloatsFields fs = true → renderTopFields fs = .ok ps →
      ∀ p ∈ ps, CleanL p.1.data ∧ CleanL p.2.data
  | [], ps, _, h => by
      simp [renderTopFields] at h; subst h; simp
  | (k, v) :: rest, ps, hv, h => by
      rw [renderTopFields] at h
      simp only [validFloatsFields, Bool.and_eq_true] at hv
      cases hr : jsonValue true v with
      | error e => rw [hr] at h; exact Except.noConfusion h
      | ok r =>
          simp only [hr, Except.bind] at h
          cases hrest : renderTopFields rest with
          | error e => rw [hrest] at h; exact Except.noConfusion h
          | ok ps2 =>
              simp only [hrest, Except.bind] at h
              injection h with h; subst h
              intro p hp
              rcases List.mem_cons.mp hp with rfl | hp
              · exact ⟨clean_percentEncode k, jsonValue_clean v true r hv.1 hr⟩
              · exact renderTopFields_clean rest ps2 hv.2 hrest p hp

theorem renderTopEntries_clean :
    ∀ (es : List (JValue × JValue)) (ps : List (String × String)),
      validFloatsEntries es = true → renderTopEntries es = .ok ps →
      ∀ p ∈ ps, CleanL p.1.data ∧ CleanL p.2.data
  | [], ps, _, h => by
      simp [renderTopEntries] at h; subst h; simp
  | (k, v) :: rest, ps, hv, h => by
      rw [renderTopEntries] at h
      simp only [validFloatsEntries, Bool.and_eq_true] at hv
      cases hk : keyRender false k with
      | error e => rw [hk] at h; exact Except.noConfusion h
      | ok ks =>
          simp only [hk, Except.bind] at h
          cases hr : jsonValue true v with
          | error e => rw [hr] at h; exact Except.noConfusion h
          | ok r =>
              simp only [hr, Except.bind] at h
              cases hrest : renderTopEntries rest with
              | error e => rw [hrest] at h; exact Except.noConfusion h
              | ok ps2 =>
                  simp only [hrest, Except.bind] at h
                  injection h with h; subst h
                  intro p hp
                  rcases List.mem_cons.mp hp with rfl | hp
                  · exact ⟨keyRender_clean k false ks hv.1.1 hk,
                      jsonValue_clean v true r hv.1.2 hr⟩
                  · exact renderTopEntries_clean rest ps2 hv.2 hrest p hp

theorem serializeRoot_pairs :
    ∀ (v : JValue) (out : String), validFloats v = true →
      serializeRoot v = .ok out →
      ∃ pairs : List (String × String),
        out = joinSep "&" (pairs.map (fun p => p.1 ++ "=" ++ p.2)) ∧
        ∀ p ∈ pairs, CleanL p.1.data ∧ CleanL p.2.data
  | .vStruct fs, out, hv, h => by
      rw [serializeRoot] at h
      cases hr : renderTopFields fs with
      | error e => rw [hr] at h; exact Except.noConfusion h
      | ok ps =>
          simp only [hr, Except.map] at h
          injection h with h; subst h
          exact ⟨ps, rfl, renderTopFields_clean fs ps (by simpa [validFloats] using hv) hr⟩
  | .vMap es, out, hv, h => by
      rw [serializeRoot] at h
      cases hr : renderTopEntries es with
      | error e => rw [hr] at h; exact Except.noConfusion h
      | ok ps =>
          simp only [hr, Except.map] at h
          injection h with h; subst h
          exact ⟨ps, rfl, renderTopEntries_clean es ps (by simpa [validFloats] using hv) hr⟩
  | .vUnit, out, _, h => by
      simp [serializeRoot] at h; subst h; exact ⟨[], rfl, by simp⟩
  | .vNone, out, _, h => by
      simp [serializeRoot] at h; subst h; exact ⟨[], rfl, by simp⟩
  | .vUnitStruct, out, _, h => by
      simp [serializeRoot] at h; subst h; exact ⟨[], rfl, by simp⟩
  | .vSome v, out, hv, h =>
      serializeRoot_pairs v out (by simpa [validFloats] using hv)
        (by simpa [serializeRoot] using h)
  | .vNewtypeStruct v, out, hv, h =>
      serializeRoot_pairs v out (by simpa [validFloats] using hv)
        (by simpa [serializeRoot] using h)
  | .vNewtypeVariant name v, out, hv, h => by
      rw [serializeRoot] at h
      cases hr : jsonValue true v with
      | error e => rw [hr] at h; exact Except.noConfusion h
      | ok r =>
          simp only [hr, Except.bind] at h
          injection h with h; subst h
          refine ⟨[(percentEncode name, r)], by simp [joinSep], ?_⟩
          intro p hp
          simp only [List.mem_singleton] at hp
          subst hp
          exact ⟨clean_percentEncode name,
            jsonValue_clean v true r (by simpa [validFloats] using hv) hr⟩
  | .vTupleVariant name vs, out, hv, h => by
      rw [serializeRoot] at h
      cases hrs : renderList vs with
      | error e => rw [hrs] at h; exact Except.noConfusion h
      | ok rs =>
          simp only [hrs, Except.bind] at h
          injection h with h; subst h
          refine ⟨[(percentEncode name, "%5B" ++ joinSep "%2C" rs ++ "%5D")],
            by simp [joinSep], ?_⟩
          intro p hp
          simp only [List.mem_singleton] at hp
          subst hp
          refine ⟨clean_percentEncode name, ?_⟩
          refine clean_wrap _ _ _ (clean_pct_tok (by decide) (by decide))
            (clean_pct_tok (by decide) (by decide)) ?_
          refine clean_joinSep _ _ (clean_pct_tok (by decide) (by decide)) ?_
          exact renderList_clean vs rs (by simpa [validFloats] using hv) hrs
  | .vStructVariant name fs, out, hv, h => by
      rw [serializeRoot] at h
      cases hrs : renderFields fs with
      | error e => rw [hrs] at h; exact Except.noConfusion h
      | ok rs =>
          simp only [hrs, Except.bind] at h
          injection h with h; subst h
          refine ⟨[(percentEncode name, "%7B" ++ joinSep "%2C" rs ++ "%7D")],
            by simp [joinSep], ?_⟩
          intro p hp
          simp only [List.mem_singleton] at hp
          subst hp
          refine ⟨clean_percentEncode name, ?_⟩
          refine clean_wrap _ _ _ (clean_pct_tok (by decide) (by decide))
            (clean_pct_tok (by decide) (by decide)) ?_
          refine clean_joinSep _ _ (clean_pct_tok (by decide) (by decide)) ?_
          exact renderFields_clean fs rs (by simpa [validFloats] using hv) hrs
  | .vBool _, out, _, h => by rw [serializeRoot] at h; exact Except.noConfusion h
  | .vInt _ _, out, _, h => by rw [serializeRoot] at h; exact Except.noConfusion h
  | .vI128 _, out, _, h => by rw [serializeRoot] at h; exact Except.noConfusion h
  | .vU128 _, out, _, h => by rw [serializeRoot] at h; exact Except.noConfusion h
  | .vFloat _ _, out, _, h => by rw [serializeRoot] at h; exact Except.noConfusion h
  | .vChar _, out, _, h => by rw [serializeRoot] at h; exact Except.noConfusion h
  | .vStr _, out, _, h => by rw [serializeRoot] at h; exact Except.noConfusion h
  | .vBytes _, out, _, h => by rw [serializeRoot] at h; exact Except.noConfusion h
  | .vUnitVariant _, out, _, h => by rw [serializeRoot] at h; exact Except.noConfusion h
  | .vSeq _, out, _, h => by rw [serializeRoot] at h; exact Except.noConfusion h
  | .vTuple _, out, _, h => by rw [serializeRoot] at h; exact Except.noConfusion h
  | .vTupleStruct _, out, _, h => by rw [serializeRoot] at h; exact Except.noConfusion h

theorem cleanL_mem {l : List Char} (h : CleanL l) :
    ∀ c ∈ l, isUnresC c = true ∨ c = '%' ∨ isHexUC c = true := by
  induction h with
  | nil => simp
  | unres hc _ ih =>
      intro x hx
      rcases List.mem_cons.mp hx with rfl | hx
      · exact Or.inl hc
      · exact ih x hx
  | pct ha hb _ ih =>
      intro x hx
      rcases List.mem_cons.mp hx with rfl | hx
      · exact Or.inr (Or.inl rfl)
      · rcases List.mem_cons.mp hx with rfl | hx
        · exact Or.inr (Or.inr ha)
        · rcases List.mem_cons.mp hx with rfl | hx
          · exact Or.inr (Or.inr hb)
          · exact ih x hx

theorem cleanL_no_amp_eq {l : List Char} (h : CleanL l) :
    ∀ c ∈ l, c ≠ '&' ∧ c ≠ '=' := by
  intro c hc
  rcases cleanL_mem h c hc with hu | rfl | hx
  · constructor <;> rintro rfl <;> simp [isUnresC, Char.isAlphanum, Char.isAlpha,
      Char.isUpper, Char.isLower, Char.isDigit] at hu
  · constructor <;> decide
  · constructor <;> rintro rfl <;> simp [isHexUC, Char.isDigit] at hx

theorem string_empty_append (o : String) : ("" : String) ++ o = o := by
  apply String.ext
  simp [String.data_append]

theorem to_string_ok {v : JValue} {out : String} (h : to_string v = .ok out) :
    serializeRoot v = .ok out := by
  rw [to_string, to_writer] at h
  cases hr : serializeRoot v with
  | error e => rw [hr] at h; exact Except.noConfusion h
  | ok o =>
      rw [hr] at h
      simp only [Except.map] at h
      injection h with h
      rw [← h, string_empty_append]

/-- C8: whenever encoding succeeds, the output is a list of key=value pairs
joined by raw ampersands in which every character of key and value text is
either an unreserved character or part of a complete percent triple — so the
separator characters & and = never occur unencoded inside a key or a value
(in particular percent-encoding maps them to %26 and %3D). The float
renderings carried by the input are assumed to be ryu output characters. -/
theorem c8_output_percent_encoded :
    (∀ v out, validFloats v = true → to_string v = .ok out →
      ∃ pairs : List (String × String),
        out = joinSep "&" (pairs.map (fun p => p.1 ++ "=" ++ p.2)) ∧
        ∀ p ∈ pairs, CleanL p.1.data ∧ CleanL p.2.data ∧
          (∀ c ∈ p.1.data, c ≠ '&' ∧ c ≠ '=') ∧
          (∀ c ∈ p.2.data, c ≠ '&' ∧ c ≠ '=')) ∧
    percentEncode "&" = "%26" ∧ percentEncode "=" = "%3D" := by
  refine ⟨?_, rfl, rfl⟩
  intro v out hv h
  obtain ⟨pairs, hout, hclean⟩ := serializeRoot_pairs v out hv (to_string_ok h)
  refine ⟨pairs, hout, fun p hp => ?_⟩
  obtain ⟨h1, h2⟩ := hclean p hp
  exact ⟨h1, h2, cleanL_no_amp_eq h1, cleanL_no_amp_eq h2⟩

/-- C8 witness: the invariant instantiated at a record whose key contains &
and whose string value contains =. -/
theorem c8_witness :
    ∃ pairs : List (String × String),
      "a%26b=x%3Dy" = joinSep "&" (pairs.map (fun p => p.1 ++ "=" ++ p.2)) ∧
      ∀ p ∈ pairs, CleanL p.1.data ∧ CleanL p.2.data ∧
        (∀ c ∈ p.1.data, c ≠ '&' ∧ c ≠ '=') ∧
        (∀ c ∈ p.2.data, c ≠ '&' ∧ c ≠ '=') :=
  c8_output_percent_encoded.1 (.vStruct [("a&b", .vStr "x=y")]) "a%26b=x%3Dy" rfl rfl


/-! ### Decode round trip for scalar fields -/

theorem parseNatAcc_nil (acc : Nat) : parseNatAcc acc [] = acc := rfl

theorem parseNatAcc_cons (acc : Nat) (c : Char) (r : List Char) :
    parseNatAcc acc (c :: r) = parseNatAcc (acc * 10 + (c.toNat - 48)) r := rfl

theorem parseNatAcc_append (l1 l2 : List Char) :
    ∀ acc, parseNatAcc acc (l1 ++ l2) = parseNatAcc (parseNatAcc acc l1) l2 := by
  induction l1 with
  | nil => intro acc; rfl
  | cons c r ih =>
      intro acc
      simp only [List.cons_append]
      rw [parseNatAcc_cons, parseNatAcc_cons]
      exact ih _

theorem digitChar_toNat (n : Nat) (h : n < 10) : (digitChar n).toNat = 48 + n := by
  interval_cases n <;> rfl

theorem digitChar_isDigit (n : Nat) : (digitChar n).isDigit = true := by
  unfold digitChar; split <;> decide

theorem natDecCore_parse : ∀ (fuel n acc : Nat), n < fuel →
    parseNatAcc acc (natDecCore fuel n) =
      acc * 10 ^ (natDecCore fuel n).length + n := by
  intro fuel
  induction fuel with
  | zero => intro n acc h; omega
  | succ f ih =>
      intro n acc h
      rw [natDecCore]
      split
      · rename_i hlt
        rw [parseNatAcc_cons, parseNatAcc_nil, digitChar_toNat n hlt]
        simp
      · rename_i hge
        rw [parseNatAcc_append]
        have hdiv : n / 10 < n := Nat.div_lt_self (by omega) (by omega)
        have hn : n / 10 < f := by omega
        rw [ih (n / 10) acc hn]
        rw [parseNatAcc_cons, parseNatAcc_nil]
        simp only [List.length_append, List.length_cons, List.length_nil]
        rw [digitChar_toNat (n % 10) (by omega)]
        rw [pow_succ]
        have hmod := Nat.div_add_mod n 10
        generalize (10 : Nat) ^ (natDecCore f (n / 10)).length = K at *
        have : acc * (K * 10) = acc * K * 10 := by ring
        rw [this]
        omega

theorem natDec_parse (n : Nat) : parseNatAcc 0 (natDec n) = n := by
  have := natDecCore_parse (n + 1) n 0 (by omega)
  simpa using this

theorem natDec_ne_nil (n : Nat) : natDec n ≠ [] := by
  rw [natDec, natDecCore]; split <;> simp

theorem natDec_digits (n : Nat) : ∀ c ∈ natDec n, c.isDigit = true :=
  natDecCore_digits _ _

theorem intDec_chars (n : Int) :
    ∀ c ∈ (intDec n).data, c.isDigit = true ∨ c = '-' := by
  intro c hc
  unfold intDec at hc
  split at hc
  · simp only [List.mem_cons] at hc
    rcases hc with rfl | hc
    · exact Or.inr rfl
    · exact Or.inl (natDec_digits _ c hc)
  · exact Or.inl (natDec_digits _ c hc)

theorem minus_not_digit : ('-' : Char).isDigit = false := by decide

theorem parseIntTok_intDec (n : Int) : parseIntTok (intDec n).data = some n := by
  unfold intDec
  split
  · rename_i hneg
    show parseIntTok ('-' :: natDec n.natAbs) = some n
    rw [parseIntTok]
    rw [if_pos rfl, if_pos ⟨natDec_ne_nil _, List.all_eq_true.mpr
      (fun c hc => natDec_digits _ c hc)⟩]
    rw [natDec_parse]
    congr 1
    omega
  · rename_i hpos
    show parseIntTok (natDec n.toNat) = some n
    obtain ⟨c, rest, hcr⟩ : ∃ c rest, natDec n.toNat = c :: rest := by
      cases hh : natDec n.toNat with
      | nil => exact absurd hh (natDec_ne_nil _)
      | cons c rest => exact ⟨c, rest, rfl⟩
    rw [hcr, parseIntTok]
    have hcd : c.isDigit = true := natDec_digits n.toNat c (by rw [hcr]; simp)
    rw [if_neg (by rintro rfl; simp [minus_not_digit] at hcd)]
    rw [if_pos (by
      rw [← hcr]
      exact List.all_eq_true.mpr fun c hc => natDec_digits _ c hc)]
    rw [← hcr, natDec_parse]
    simp only [Option.some.injEq]
    omega

theorem char_toNat_lt (c : Char) : c.toNat < 1114112 := by
  rcases c.valid with h | ⟨h1, h2⟩ <;> simp [Char.toNat] <;> omega

theorem utf8Char_bytes_lt (c : Char) : ∀ b ∈ utf8Char c, b < 256 := by
  have hv := char_toNat_lt c
  intro b hb
  unfold utf8Char at hb
  split_ifs at hb
  · simp only [List.mem_singleton] at hb; omega
  · simp only [List.mem_cons, List.not_mem_nil, or_false] at hb
    rcases hb with rfl | rfl <;> omega
  · simp only [List.mem_cons, List.not_mem_nil, or_false] at hb
    rcases hb with rfl | rfl | rfl <;> omega
  · simp only [List.mem_cons, List.not_mem_nil, or_false] at hb
    rcases hb with rfl | rfl | rfl | rfl <;> omega

theorem utf8Decode_char (c : Char) (rest : List Nat) :
    utf8Decode (utf8Char c ++ rest) = (utf8Decode rest).map (c :: ·) := by
  have hlt := char_toNat_lt c
  unfold utf8Char
  by_cases h1 : c.toNat < 0x80
  · rw [if_pos h1]
    show utf8Decode (c.toNat :: rest) = _
    rw [utf8Decode, if_pos h1, Char.ofNat_toNat]
  · rw [if_neg h1]
    by_cases h2 : c.toNat < 0x800
    · rw [if_pos h2]
      show utf8Decode ((0xC0 + c.toNat / 64) :: (0x80 + c.toNat % 64) :: rest) = _
      rw [utf8Decode, if_neg (by omega), if_neg (by omega), if_pos (by omega)]
      rw [utf8Dec2, if_pos (by simp [isContB]; omega)]
      have h : (0xC0 + c.toNat / 64 - 0xC0) * 64 + (0x80 + c.toNat % 64 - 0x80)
          = c.toNat := by omega
      rw [h, Char.ofNat_toNat]
    · rw [if_neg h2]
      by_cases h3 : c.toNat < 0x10000
      · rw [if_pos h3]
        show utf8Decode ((0xE0 + c.toNat / 4096) :: (0x80 + c.toNat / 64 % 64)
          :: (0x80 + c.toNat % 64) :: rest) = _
        rw [utf8Decode, if_neg (by omega), if_neg (by omega), if_neg (by omega),
          if_pos (by omega)]
        rw [utf8Dec3, if_pos (by simp [isContB]; omega)]
        have h : (0xE0 + c.toNat / 4096 - 0xE0) * 4096 +
            (0x80 + c.toNat / 64 % 64 - 0x80) * 64 + (0x80 + c.toNat % 64 - 0x80)
            = c.toNat := by omega
        rw [h, Char.ofNat_toNat]
      · rw [if_neg h3]
        show utf8Decode ((0xF0 + c.toNat / 262144) :: (0x80 + c.toNat / 4096 % 64)
          :: (0x80 + c.toNat / 64 % 64) :: (0x80 + c.toNat % 64) :: rest) = _
        rw [utf8Decode, if_neg (by omega), if_neg (by omega), if_neg (by omega),
          if_neg (by omega), if_pos (by omega)]
        rw [utf8Dec4, if_pos (by simp [isContB]; omega)]
        have h : (0xF0 + c.toNat / 262144 - 0xF0) * 262144 +
            (0x80 + c.toNat / 4096 % 64 - 0x80) * 4096 +
            (0x80 + c.toNat / 64 % 64 - 0x80) * 64 +
            (0x80 + c.toNat % 64 - 0x80) = c.toNat := by omega
        rw [h, Char.ofNat_toNat]

theorem utf8Decode_flatMap (l : List Char) :
    ∀ rest, utf8Decode (l.flatMap utf8Char ++ rest) =
      (utf8Decode rest).map (l ++ ·) := by
  induction l with
  | nil => intro rest; cases h : utf8Decode rest <;> simp [h]
  | cons c r ih =>
      intro rest
      rw [List.flatMap_cons, List.append_assoc, utf8Decode_char, ih]
      cases h : utf8Decode rest <;> simp [h]

theorem utf8Decode_utf8Str (s : String) : utf8Decode (utf8Str s) = some s.data := by
  have h := utf8Decode_flatMap s.data []
  rw [List.append_nil] at h
  rw [utf8Str, h]
  simp [utf8Decode]

theorem hexVal_hexU : ∀ x, x < 16 → hexVal (hexU x) = some x := by decide

theorem percentDecodeB_nil : percentDecodeB [] = some [] := rfl

theorem percentDecodeB_raw {c : Char} (hc : c ≠ '%') (rest : List Char) :
    percentDecodeB (c :: rest) = (percentDecodeB rest).map (c.toNat :: ·) := by
  rw [percentDecodeB, if_neg hc]

theorem percentDecodeB_triple {b : Nat} (hb : b < 256) (rest : List Char) :
    percentDecodeB ('%' :: hexU (b / 16) :: hexU (b % 16) :: rest) =
      (percentDecodeB rest).map (b :: ·) := by
  rw [percentDecodeB, if_pos rfl, pctTriple]
  rw [hexVal_hexU (b / 16) (by omega), hexVal_hexU (b % 16) (by omega)]
  cases h : percentDecodeB rest <;> simp [h]
  omega

theorem char_ne_of_toNat_ne {c d : Char} (h : c.toNat ≠ d.toNat) : c ≠ d :=
  fun heq => h (by rw [heq])

theorem unres_ranges {c : Char} (h : isUnresC c = true) :
    48 ≤ c.toNat ∧ c.toNat ≤ 57 ∨ 65 ≤ c.toNat ∧ c.toNat ≤ 90 ∨
    97 ≤ c.toNat ∧ c.toNat ≤ 122 ∨ c.toNat = 45 ∨ c.toNat = 46 ∨
    c.toNat = 95 ∨ c.toNat = 126 := by
  simp only [isUnresC, Char.isAlphanum, Char.isAlpha, Char.isUpper, Char.isLower,
    Char.isDigit, Char.le_def, Bool.or_eq_true, Bool.and_eq_true,
    decide_eq_true_eq, beq_iff_eq] at h
  repeat' rcases h with h | h
  all_goals
    first
      | (obtain ⟨h1, h2⟩ := h
         simp [UInt32.le_def, BitVec.le_def] at h1 h2
         simp only [Char.toNat, UInt32.toNat]
         omega)
      | decide

theorem unres_ascii {c : Char} (h : isUnresC c = true) :
    c.toNat < 128 ∧ c ≠ '%' := by
  have hb := unres_ranges h
  exact ⟨by omega, char_ne_of_toNat_ne (by show c.toNat ≠ 37; omega)⟩

theorem percentDecodeB_tok (c : Char) (rest : List Char) :
    percentDecodeB (pctEncodeChar c ++ rest) =
      (percentDecodeB rest).map (utf8Char c ++ ·) := by
  unfold pctEncodeChar
  split
  · rename_i hu
    obtain ⟨ha, hp⟩ := unres_ascii hu
    show percentDecodeB (c :: rest) = _
    rw [percentDecodeB_raw hp]
    have h : utf8Char c = [c.toNat] := by rw [utf8Char, if_pos (by omega)]
    rw [h]
    cases hm : percentDecodeB rest <;> simp [hm]
  · have hb := utf8Char_bytes_lt c
    generalize utf8Char c = bs at hb ⊢
    induction bs with
    | nil => cases h : percentDecodeB rest <;> simp [h]
    | cons b br ih =>
        simp only [List.flatMap_cons, List.append_assoc, List.cons_append,
          List.nil_append]
        rw [percentDecodeB_triple (hb b (by simp))]
        rw [ih (fun x hx => hb x (by simp [hx]))]
        cases h : percentDecodeB rest <;> simp [h]

theorem percentDecodeB_chars (l : List Char) :
    ∀ rest, percentDecodeB (l.flatMap pctEncodeChar ++ rest) =
      (percentDecodeB rest).map (l.flatMap utf8Char ++ ·) := by
  induction l with
  | nil => intro rest; cases h : percentDecodeB rest <;> simp [h]
  | cons c r ih =>
      intro rest
      rw [List.flatMap_cons, List.append_assoc, percentDecodeB_tok, ih]
      cases h : percentDecodeB rest <;> simp [h]

theorem percentDecodeB_percentEncode (s : String) :
    percentDecodeB (percentEncode s).data = some (utf8Str s) := by
  have h := percentDecodeB_chars s.data []
  rw [List.append_nil] at h
  show percentDecodeB (s.data.flatMap pctEncodeChar) = _
  rw [h, utf8Str, percentDecodeB_nil]
  simp

theorem splitSep_nosep {sep : Char} : ∀ {l : List Char},
    (∀ c ∈ l, c ≠ sep) → splitSep sep l = [l]
  | [], _ => rfl
  | c :: rest, h => by
      rw [splitSep, if_neg (h c (by simp))]
      rw [splitSep_nosep (fun x hx => h x (by simp [hx]))]

theorem splitSep_append {sep : Char} : ∀ {l1 : List Char} (l2 : List Char),
    (∀ c ∈ l1, c ≠ sep) →
    splitSep sep (l1 ++ sep :: l2) = l1 :: splitSep sep l2
  | [], l2, _ => by
      rw [List.nil_append, splitSep, if_pos rfl]
  | c :: rest, l2, h => by
      rw [List.cons_append, splitSep, if_neg (h c (by simp))]
      rw [splitSep_append l2 (fun x hx => h x (by simp [hx]))]

theorem splitEq_append {k : List Char} (v : List Char)
    (h : ∀ c ∈ k, c ≠ '=') : splitEq (k ++ '=' :: v) = some (k, v) := by
  induction k with
  | nil => rw [List.nil_append, splitEq, if_pos rfl]
  | cons c rest ih =>
      rw [List.cons_append, splitEq, if_neg (h c (by simp))]
      rw [ih (fun x hx => h x (by simp [hx]))]
      rfl

theorem percentDecodeB_no_pct {l : List Char} (h : ∀ c ∈ l, c ≠ '%') :
    percentDecodeB l = some (l.map Char.toNat) := by
  induction l with
  | nil => rfl
  | cons c rest ih =>
      rw [percentDecodeB_raw (h c (by simp)), ih (fun x hx => h x (by simp [hx]))]
      rfl

theorem flatMap_utf8_ascii {l : List Char} (h : ∀ c ∈ l, c.toNat < 128) :
    l.flatMap utf8Char = l.map Char.toNat := by
  induction l with
  | nil => rfl
  | cons c rest ih =>
      rw [List.flatMap_cons, ih (fun x hx => h x (by simp [hx]))]
      have hc : utf8Char c = [c.toNat] := by
        rw [utf8Char, if_pos (h c (by simp))]
      rw [hc]
      rfl

/-- Decode an ASCII token that contains no percent sign: it reads back as
itself. -/
theorem decode_ascii_tok {l : List Char}
    (h : ∀ c ∈ l, c ≠ '%' ∧ c.toNat < 128) :
    (percentDecodeB l).bind utf8Decode = some l := by
  rw [percentDecodeB_no_pct (fun c hc => (h c hc).1)]
  rw [Option.some_bind]
  rw [← flatMap_utf8_ascii (fun c hc => (h c hc).2)]
  have hd := utf8Decode_flatMap l []
  rw [List.append_nil] at hd
  rw [hd]
  simp [utf8Decode]

theorem digit_bounds {c : Char} (h : c.isDigit = true) :
    48 ≤ c.toNat ∧ c.toNat ≤ 57 := by
  simp [Char.isDigit, Char.le_def, UInt32.le_def, BitVec.le_def] at h
  obtain ⟨h1, h2⟩ := h
  simp only [Char.toNat, UInt32.toNat]
  omega

theorem intDec_tok_chars (n : Int) :
    ∀ c ∈ (intDec n).data, c ≠ '%' ∧ c ≠ '&' ∧ c ≠ '=' ∧ c.toNat < 128 := by
  intro c hc
  rcases intDec_chars n c hc with hd | rfl
  · obtain ⟨h1, h2⟩ := digit_bounds hd
    refine ⟨char_ne_of_toNat_ne (by show c.toNat ≠ 37; omega),
      char_ne_of_toNat_ne (by show c.toNat ≠ 38; omega),
      char_ne_of_toNat_ne (by show c.toNat ≠ 61; omega), by omega⟩
  · exact ⟨by decide, by decide, by decide, by decide⟩

theorem ryu_tok_chars {c : Char} (h : isRyuChar c = true) :
    c ≠ '%' ∧ c ≠ '&' ∧ c ≠ '=' ∧ c.toNat < 128 := by
  simp only [isRyuChar, Bool.or_eq_true, beq_iff_eq] at h
  rcases h with ((((hd | rfl) | rfl) | rfl) | rfl)
  · obtain ⟨h1, h2⟩ := digit_bounds hd
    refine ⟨char_ne_of_toNat_ne (by show c.toNat ≠ 37; omega),
      char_ne_of_toNat_ne (by show c.toNat ≠ 38; omega),
      char_ne_of_toNat_ne (by show c.toNat ≠ 61; omega), by omega⟩
  all_goals exact ⟨by decide, by decide, by decide, by decide⟩

theorem intDec_ne_kw (n : Int) :
    intDec n ≠ "null" ∧ intDec n ≠ "true" ∧ intDec n ≠ "false" := by
  refine ⟨?_, ?_, ?_⟩ <;> intro he
  · have hm : 'u' ∈ (intDec n).data := by rw [he]; decide
    rcases intDec_chars n 'u' hm with hd | hd <;> simp_all
  · have hm : 'u' ∈ (intDec n).data := by rw [he]; decide
    rcases intDec_chars n 'u' hm with hd | hd <;> simp_all
  · have hm : 'l' ∈ (intDec n).data := by rw [he]; decide
    rcases intDec_chars n 'l' hm with hd | hd <;> simp_all

theorem jsonParseScalar_intDec (n : Int) :
    jsonParseScalar (intDec n) = some (.jint n) := by
  obtain ⟨h1, h2, h3⟩ := intDec_ne_kw n
  rw [jsonParseScalar, if_neg h1, if_neg h2, if_neg h3, parseIntTok_intDec]

theorem jsonNumTok_kw : jsonNumTok ("null").data = false ∧
    jsonNumTok ("true").data = false ∧ jsonNumTok ("false").data = false := by
  refine ⟨rfl, rfl, rfl⟩

theorem jsonParseScalar_numTok {s : String} (h1 : jsonNumTok s.data = true)
    (h2 : (parseIntTok s.data).isNone = true) :
    jsonParseScalar s = some (.jnum s) := by
  rw [jsonParseScalar]
  rw [if_neg (by rintro rfl; rw [jsonNumTok_kw.1] at h1; exact Bool.noConfusion h1)]
  rw [if_neg (by rintro rfl; rw [jsonNumTok_kw.2.1] at h1; exact Bool.noConfusion h1)]
  rw [if_neg (by rintro rfl; rw [jsonNumTok_kw.2.2] at h1; exact Bool.noConfusion h1)]
  rw [Option.isNone_iff_eq_none] at h2
  rw [h2, h1]
  rfl

theorem scalar_render {v : JValue} (h : scalarRoundOk v = true) :
    ∃ r : String, jsonValue true v = .ok r ∧
      (∀ c ∈ r.data, c ≠ '%' ∧ c ≠ '&' ∧ c ≠ '=' ∧ c.toNat < 128) ∧
      jsonParseScalar r = some (scalarJsonD v) := by
  cases v with
  | vBool b =>
      cases b
      · exact ⟨"false", rfl, by decide, rfl⟩
      · exact ⟨"true", rfl, by decide, rfl⟩
  | vInt w n => exact ⟨intDec n, rfl, intDec_tok_chars n, jsonParseScalar_intDec n⟩
  | vI128 n => exact ⟨intDec n, rfl, intDec_tok_chars n, jsonParseScalar_intDec n⟩
  | vU128 n =>
      exact ⟨intDec (Int.ofNat n), rfl, intDec_tok_chars _, jsonParseScalar_intDec _⟩
  | vUnit => exact ⟨"null", rfl, by decide, rfl⟩
  | vNone => exact ⟨"null", rfl, by decide, rfl⟩
  | vUnitStruct => exact ⟨"null", rfl, by decide, rfl⟩
  | vFloat w x =>
      cases x with
      | nan => exact ⟨"null", rfl, by decide, rfl⟩
      | inf => exact ⟨"null", rfl, by decide, rfl⟩
      | neginf => exact ⟨"null", rfl, by decide, rfl⟩
      | fin s =>
          simp only [scalarRoundOk, Bool.and_eq_true, List.all_eq_true] at h
          obtain ⟨⟨hnum, hnone⟩, hryu⟩ := h
          exact ⟨s, rfl, fun c hc => ryu_tok_chars (hryu c hc),
            jsonParseScalar_numTok hnum hnone⟩
  | vChar c => simp [scalarRoundOk] at h
  | vStr s => simp [scalarRoundOk] at h
  | vBytes bs => simp [scalarRoundOk] at h
  | vSome v => simp [scalarRoundOk] at h
  | vNewtypeStruct v => simp [scalarRoundOk] at h
  | vSeq vs => simp [scalarRoundOk] at h
  | vTuple vs => simp [scalarRoundOk] at h
  | vTupleStruct vs => simp [scalarRoundOk] at h
  | vMap es => simp [scalarRoundOk] at h
  | vStruct fs => simp [scalarRoundOk] at h
  | vUnitVariant name => simp [scalarRoundOk] at h
  | vNewtypeVariant name v => simp [scalarRoundOk] at h
  | vTupleVariant name vs => simp [scalarRoundOk] at h
  | vStructVariant name fs => simp [scalarRoundOk] at h

theorem renderTopFields_scalars (fields : List (String × JValue)) :
    (fields.all fun f => scalarRoundOk f.2) = true →
    ∃ ps : List (String × String), renderTopFields fields = .ok ps ∧
      List.Forall₂ (fun (f : String × JValue) (p : String × String) =>
        p.1 = percentEncode f.1 ∧
        (∀ c ∈ p.2.data, c ≠ '%' ∧ c ≠ '&' ∧ c ≠ '=' ∧ c.toNat < 128) ∧
        jsonParseScalar p.2 = some (scalarJsonD f.2)) fields ps := by
  induction fields with
  | nil => intro _; exact ⟨[], rfl, List.Forall₂.nil⟩
  | cons f rest ih =>
      intro h
      simp only [List.all_cons, Bool.and_eq_true] at h
      obtain ⟨r, hr, hch, hp⟩ := scalar_render h.1
      obtain ⟨ps, hps, hfa⟩ := ih h.2
      refine ⟨(percentEncode f.1, r) :: ps, ?_, List.Forall₂.cons ⟨rfl, hch, hp⟩ hfa⟩
      obtain ⟨k, v⟩ := f
      rw [renderTopFields, hr]
      simp only [Except.bind]
      rw [hps]
      rfl

theorem data_append3 (a b c : String) :
    (a ++ b ++ c).data = a.data ++ (b.data ++ c.data) := by
  rw [String.data_append, String.data_append, List.append_assoc]

theorem pair_piece_data (p : String × String) :
    (p.1 ++ "=" ++ p.2).data = p.1.data ++ '=' :: p.2.data :=
  data_append3 p.1 "=" p.2

theorem string_mk_data (s : String) : String.mk s.data = s := rfl

theorem split_pairsOut : ∀ ps : List (String × String), ps ≠ [] →
    (∀ p ∈ ps, (∀ c ∈ p.1.data, c ≠ '&') ∧ (∀ c ∈ p.2.data, c ≠ '&')) →
    splitSep '&' (pairsOut ps).data =
      ps.map (fun p => p.1.data ++ '=' :: p.2.data)
  | [], h, _ => absurd rfl h
  | [p], _, hc => by
      rw [pairsOut]
      simp only [List.map_cons, List.map_nil]
      rw [joinSep, pair_piece_data]
      refine splitSep_nosep ?_
      intro c hc2
      rcases List.mem_append.mp hc2 with h1 | h1
      · exact (hc p (by simp)).1 c h1
      · rcases List.mem_cons.mp h1 with rfl | h1
        · decide
        · exact (hc p (by simp)).2 c h1
  | p :: p2 :: rest, _, hc => by
      have hnoamp : ∀ c ∈ p.1.data ++ '=' :: p.2.data, c ≠ '&' := by
        intro c hc2
        rcases List.mem_append.mp hc2 with h1 | h1
        · exact (hc p (by simp)).1 c h1
        · rcases List.mem_cons.mp h1 with rfl | h1
          · decide
          · exact (hc p (by simp)).2 c h1
      have hrec := split_pairsOut (p2 :: rest) (by simp)
        (fun q hq => hc q (by simp [hq]))
      have hdata : (pairsOut (p :: p2 :: rest)).data
          = (p.1.data ++ '=' :: p.2.data) ++ '&' :: (pairsOut (p2 :: rest)).data := by
        rw [pairsOut, pairsOut]
        simp only [List.map_cons]
        rw [joinSep, data_append3, pair_piece_data]
        rfl
      rw [hdata, splitSep_append _ hnoamp, hrec]
      simp

theorem decodePair_ok (f : String × JValue) (p : String × String)
    (hp1 : p.1 = percentEncode f.1)
    (hp2 : ∀ c ∈ p.2.data, c ≠ '%' ∧ c ≠ '&' ∧ c ≠ '=' ∧ c.toNat < 128)
    (hp3 : jsonParseScalar p.2 = some (scalarJsonD f.2)) :
    decodePair (p.1.data ++ '=' :: p.2.data) = some (f.1.data, scalarJsonD f.2) := by
  have hkeq : ∀ c ∈ p.1.data, c ≠ '=' := by
    rw [hp1]
    intro c hc
    exact (cleanL_no_amp_eq (clean_percentEncode f.1) c hc).2
  have hv1 : percentDecodeB p.2.data = some (p.2.data.map Char.toNat) :=
    percentDecodeB_no_pct (fun c hc => (hp2 c hc).1)
  have hv2 : utf8Decode (p.2.data.map Char.toNat) = some p.2.data := by
    rw [← flatMap_utf8_ascii (fun c hc => (hp2 c hc).2.2.2)]
    have hd := utf8Decode_flatMap p.2.data []
    rw [List.append_nil] at hd
    rw [hd]
    simp [utf8Decode]
  rw [decodePair, splitEq_append _ hkeq]
  simp [Option.bind, hp1, percentDecodeB_percentEncode,
    utf8Decode_utf8Str, hv1, hv2, string_mk_data, hp3]

theorem decodeForm_pieces {fields : List (String × JValue)}
    {ps : List (String × String)}
    (hfa : List.Forall₂ (fun (f : String × JValue) (p : String × String) =>
      p.1 = percentEncode f.1 ∧
      (∀ c ∈ p.2.data, c ≠ '%' ∧ c ≠ '&' ∧ c ≠ '=' ∧ c.toNat < 128) ∧
      jsonParseScalar p.2 = some (scalarJsonD f.2)) fields ps) :
    (ps.map (fun p => p.1.data ++ '=' :: p.2.data)).mapM decodePair =
      some (fields.map fun f => (f.1.data, scalarJsonD f.2)) := by
  induction hfa with
  | nil => rfl
  | cons hP hrest ih =>
      rename_i f p fs ps2
      simp only [List.map_cons, List.mapM_cons]
      rw [decodePair_ok f p hP.1 hP.2.1 hP.2.2, ih]
      rfl

theorem forall2_mem_right {α β : Type} {R : α → β → Prop} :
    ∀ {l1 : List α} {l2 : List β}, List.Forall₂ R l1 l2 →
      ∀ b ∈ l2, ∃ a, R a b := by
  intro l1 l2 h
  induction h with
  | nil => simp
  | cons hR _ ih =>
      intro b hb
      rcases List.mem_cons.mp hb with rfl | hb
      · exact ⟨_, hR⟩
      · exact ih b hb

theorem renderTopEntries_strKeys (fields : List (String × JValue)) :
    renderTopEntries (fields.map fun f => (.vStr f.1, f.2)) =
      renderTopFields fields := by
  induction fields with
  | nil => rfl
  | cons f rest ih =>
      obtain ⟨k, v⟩ := f
      simp only [List.map_cons]
      rw [renderTopEntries, renderTopFields]
      have hk : keyRender false (.vStr k) = .ok (percentEncode k) := rfl
      rw [hk, ih]
      rfl

theorem c3_decode_core {fields : List (String × JValue)}
    {ps : List (String × String)}
    (hfa : List.Forall₂ (fun (f : String × JValue) (p : String × String) =>
      p.1 = percentEncode f.1 ∧
      (∀ c ∈ p.2.data, c ≠ '%' ∧ c ≠ '&' ∧ c ≠ '=' ∧ c.toNat < 128) ∧
      jsonParseScalar p.2 = some (scalarJsonD f.2)) fields ps)
    (hne : ps ≠ []) :
    decodeForm (pairsOut ps) =
      some (fields.map fun f => (f.1.data, scalarJsonD f.2)) := by
  have hamp : ∀ p ∈ ps, (∀ c ∈ p.1.data, c ≠ '&') ∧ (∀ c ∈ p.2.data, c ≠ '&') := by
    intro p hp
    obtain ⟨f, hf⟩ := forall2_mem_right hfa p hp
    constructor
    · intro c hc
      rw [hf.1] at hc
      exact (cleanL_no_amp_eq (clean_percentEncode f.1) c hc).1
    · intro c hc
      exact (hf.2.1 c hc).2.1
  rw [decodeForm, split_pairsOut ps hne hamp]
  exact decodeForm_pieces hfa

/-- C3 counterexample: a char field value is a scalar in the spec's data
model, but it is rendered unquoted in top-level-value mode, so the decode
procedure's JSON parse fails on it; and a NaN float field is rendered null,
so JSON-parsing the decoded value yields null, not the original float. -/
theorem c3_counterexample :
    to_string (.vStruct [("k", .vChar 'a')]) = .ok "k=a" ∧
    decodeForm "k=a" = none ∧
    jsonParseScalar "a" = none ∧
    to_string (.vStruct [("x", .vFloat .f64 .nan)]) = .ok "x=null" ∧
    decodeForm "x=null" = some [(['x'], .null)] :=
  ⟨rfl, rfl, rfl, rfl, rfl⟩

/-- C3 amended: for Record and Map roots all of whose field values are
scalars other than chars (booleans, integers, unit-likes, floats with
well-formed renderings), splitting the output on &, splitting each pair on
=, percent-decoding each side and JSON-parsing each decoded value recovers
every original key exactly and every value's JSON scalar reading — exact for
booleans and integers, the number token for finite floats, null for unit,
None, unit structs and non-finite floats. -/
theorem c3_amended :
    (∀ fields : List (String × JValue),
      (fields.all fun f => scalarRoundOk f.2) = true → fields ≠ [] →
      ∀ out, to_string (.vStruct fields) = .ok out →
      decodeForm out = some (fields.map fun f => (f.1.data, scalarJsonD f.2))) ∧
    (∀ fields : List (String × JValue),
      (fields.all fun f => scalarRoundOk f.2) = true → fields ≠ [] →
      ∀ out, to_string (.vMap (fields.map fun f => (.vStr f.1, f.2))) = .ok out →
      decodeForm out = some (fields.map fun f => (f.1.data, scalarJsonD f.2))) := by
  have core : ∀ fields : List (String × JValue),
      (fields.all fun f => scalarRoundOk f.2) = true → fields ≠ [] →
      ∀ ps, renderTopFields fields = .ok ps →
      ∀ out, pairsOut ps = out →
      decodeForm out = some (fields.map fun f => (f.1.data, scalarJsonD f.2)) := by
    intro fields hall hne ps hps out hout
    obtain ⟨ps2, hps2, hfa⟩ := renderTopFields_scalars fields hall
    rw [hps] at hps2
    injection hps2 with he
    subst he
    have hpsne : ps ≠ [] := by
      rintro rfl
      cases hfa
      exact hne rfl
    rw [← hout]
    exact c3_decode_core hfa hpsne
  constructor
  · intro fields hall hne out henc
    have h2 := to_string_ok henc
    rw [serializeRoot] at h2
    cases hps : renderTopFields fields with
    | error e => rw [hps] at h2; exact Except.noConfusion h2
    | ok ps =>
        rw [hps] at h2
        simp only [Except.map] at h2
        injection h2 with h2
        exact core fields hall hne ps hps out h2
  · intro fields hall hne out henc
    have h2 := to_string_ok henc
    rw [serializeRoot] at h2
    rw [renderTopEntries_strKeys] at h2
    cases hps : renderTopFields fields with
    | error e => rw [hps] at h2; exact Except.noConfusion h2
    | ok ps =>
        rw [hps] at h2
        simp only [Except.map] at h2
        injection h2 with h2
        exact core fields hall hne ps hps out h2

/-- C3 witness: the round trip instantiated at a four-field record. -/
theorem c3_witness :
    decodeForm "id=123&ok=true&x=1.5&n=null" =
      some [(['i','d'], .jint 123), (['o','k'], .jbool true),
        (['x'], .jnum "1.5"), (['n'], .null)] :=
  c3_amended.1
    [("id", .vInt .i64 123), ("ok", .vBool true),
     ("x", .vFloat .f64 (.fin "1.5")), ("n", .vNone)]
    (by decide) (List.cons_ne_nil _ _) "id=123&ok=true&x=1.5&n=null" rfl

/-- C1: a string standing alone as the entire value of a top-level form field
(top-level-value mode) is written as the percent-encoding of the string
itself, with no surrounding JSON quotes and no JSON escaping; in particular
the field value a "key"=value yields the value segment a%20%22key%22%3Dvalue. -/
theorem c1_top_level_string_unquoted :
    (∀ s : String, jsonValue true (.vStr s) = .ok (percentEncode s)) ∧
    to_string (.vStruct [("q", .vStr "a \"key\"=value")]) =
      .ok "q=a%20%22key%22%3Dvalue" :=
  ⟨fun _ => rfl, rfl⟩

/-- C2 counterexample: the claim says every scalar-shaped root — explicitly
including unit, None, unit structs and any integer — fails with NotAnObject;
but a unit root succeeds with empty output, and an i128 root fails with
serde's default custom message instead. -/
theorem c2_counterexample :
    to_string .vUnit = .ok "" ∧
    to_string (.vI128 5) = .error (.Message "i128 is not supported") :=
  ⟨rfl, rfl⟩

/-- C2 amended: roots of shape bool, i8..u64, f32/f64, char, str, bytes,
sequence, tuple or tuple struct fail with NotAnObject carrying the shape
name; roots that are unit, None or a unit struct instead succeed with empty
output; 128-bit integer roots fail with serde's default custom error. Only
Record, Map and data-carrying variants are accepted. -/
theorem c2_amended_root_rejection :
    (∀ b, to_string (.vBool b) = .error (.NotAnObject "bool")) ∧
    (∀ w n, to_string (.vInt w n) = .error (.NotAnObject w.name)) ∧
    (∀ w x, to_string (.vFloat w x) = .error (.NotAnObject w.name)) ∧
    (∀ c, to_string (.vChar c) = .error (.NotAnObject "char")) ∧
    (∀ s, to_string (.vStr s) = .error (.NotAnObject "str")) ∧
    (∀ bs, to_string (.vBytes bs) = .error (.NotAnObject "bytes")) ∧
    (∀ vs, to_string (.vSeq vs) = .error (.NotAnObject "Seq")) ∧
    (∀ vs, to_string (.vTuple vs) = .error (.NotAnObject "Tuple")) ∧
    (∀ vs, to_string (.vTupleStruct vs) = .error (.NotAnObject "TupleStruct")) ∧
    to_string .vUnit = .ok "" ∧ to_string .vNone = .ok "" ∧
    to_string .vUnitStruct = .ok "" ∧
    (∀ n, to_string (.vI128 n) = .error (.Message "i128 is not supported")) ∧
    (∀ n, to_string (.vU128 n) = .error (.Message "u128 is not supported")) :=
  ⟨fun _ => rfl, fun _ _ => rfl, fun _ _ => rfl, fun _ => rfl, fun _ => rfl,
   fun _ => rfl, fun _ => rfl, fun _ => rfl, fun _ => rfl, rfl, rfl, rfl,
   fun _ => rfl, fun _ => rfl⟩

/-- C4 counterexample: for the record with the single field key: a "b" the
claim predicts the JSON-escaped, quoted value segment
%22a%20%5C%22b%5C%22%22, but the encoder treats a direct string field value
in top-level-value mode and emits it unquoted and unescaped: a%20%22b%22. -/
theorem c4_counterexample :
    to_string (.vStruct [("key", .vStr "a \"b\"")]) = .ok "key=a%20%22b%22" ∧
    "key=a%20%22b%22" ≠ "key=%22a%20%5C%22b%5C%22%22" :=
  ⟨rfl, by decide⟩

/-- C4 amended: a string field value is written unquoted and unescaped, so
the example record encodes to key=a%20%22b%22; the quote-and-escape rendering
%22a%20%5C%22b%5C%22%22 is what the same string produces when nested inside
JSON content (e.g. as an array element). -/
theorem c4_amended_string_field :
    to_string (.vStruct [("key", .vStr "a \"b\"")]) = .ok "key=a%20%22b%22" ∧
    jsonValue false (.vStr "a \"b\"") = .ok "%22a%20%5C%22b%5C%22%22" ∧
    to_string (.vStruct [("key", .vSeq [.vStr "a \"b\""])]) =
      .ok "key=%5B%22a%20%5C%22b%5C%22%22%5D" :=
  ⟨rfl, rfl, rfl⟩

/-- C5: non-finite floats are written as the literal null wherever they occur
as values (top-level or nested inside JSON content) and are a hard
FloatKeyMustBeFinite error when used as a map/object key, under either key
writer; a finite float key is written as its decimal rendering. -/
theorem c5_nonfinite_floats :
    (∀ tl w, jsonValue tl (.vFloat w .nan) = .ok "null" ∧
             jsonValue tl (.vFloat w .inf) = .ok "null" ∧
             jsonValue tl (.vFloat w .neginf) = .ok "null") ∧
    (∀ esc w, keyRender esc (.vFloat w .nan) = .error .FloatKeyMustBeFinite ∧
              keyRender esc (.vFloat w .inf) = .error .FloatKeyMustBeFinite ∧
              keyRender esc (.vFloat w .neginf) = .error .FloatKeyMustBeFinite) ∧
    (∀ esc w s, keyRender esc (.vFloat w (.fin s)) = .ok s) ∧
    to_string (.vStruct [("x", .vFloat .f64 .nan)]) = .ok "x=null" ∧
    jsonValue false (.vSeq [.vFloat .f64 .nan]) = .ok "%5Bnull%5D" ∧
    to_string (.vMap [(.vFloat .f64 .nan, .vBool true)]) =
      .error .FloatKeyMustBeFinite :=
  ⟨fun _ w => ⟨by cases w <;> rfl, by cases w <;> rfl, by cases w <;> rfl⟩,
   fun _ w => ⟨by cases w <;> rfl, by cases w <;> rfl, by cases w <;> rfl⟩,
   fun _ w _ => by cases w <;> rfl, rfl, rfl, rfl⟩

/-- C6 counterexample: the claim counts unit among the accepted
Scalar-or-Str key shapes, but the key sub-protocol rejects a unit key with
KeyMustBeAString("()"), both standalone and for a map nested in JSON
content. -/
theorem c6_counterexample :
    keyRender true .vUnit = .error (.KeyMustBeAString "()") ∧
    jsonValue false (.vMap [(.vUnit, .vBool true)]) =
      .error (.KeyMustBeAString "()") :=
  ⟨rfl, rfl⟩

/-- C6 amended: under either key writer, keys of shape bool, integer
(including 128-bit), finite float, char, string or unit variant are accepted
and written; every composite shape fails with KeyMustBeAString carrying the
shape name; and — contrary to the claim — unit, None and unit-struct keys
also fail with KeyMustBeAString ("()", "Option::<T>::None", "UnitStruct"). -/
theorem c6_amended_key_protocol :
    (∀ esc b, keyRender esc (.vBool b) = .ok (boolLit b)) ∧
    (∀ esc w n, keyRender esc (.vInt w n) = .ok (intDec n)) ∧
    (∀ esc n, keyRender esc (.vI128 n) = .ok (intDec n)) ∧
    (∀ esc n, keyRender esc (.vU128 n) = .ok (intDec n)) ∧
    (∀ esc w s, keyRender esc (.vFloat w (.fin s)) = .ok s) ∧
    (∀ esc c, keyRender esc (.vChar c) = .ok (strKey esc (String.mk [c]))) ∧
    (∀ esc s, keyRender esc (.vStr s) = .ok (strKey esc s)) ∧
    (∀ esc name, keyRender esc (.vUnitVariant name) = .ok (strKey esc name)) ∧
    (∀ esc bs, keyRender esc (.vBytes bs) = .error (.KeyMustBeAString "bytes")) ∧
    (∀ esc vs, keyRender esc (.vSeq vs) = .error (.KeyMustBeAString "Seq")) ∧
    (∀ esc vs, keyRender esc (.vTuple vs) = .error (.KeyMustBeAString "Tuple")) ∧
    (∀ esc vs, keyRender esc (.vTupleStruct vs) =
      .error (.KeyMustBeAString "TupleStruct")) ∧
    (∀ esc es, keyRender esc (.vMap es) = .error (.KeyMustBeAString "Map")) ∧
    (∀ esc fs, keyRender esc (.vStruct fs) = .error (.KeyMustBeAString "struct")) ∧
    (∀ esc n v, keyRender esc (.vNewtypeVariant n v) =
      .error (.KeyMustBeAString "NewtypeVariant")) ∧
    (∀ esc n vs, keyRender esc (.vTupleVariant n vs) =
      .error (.KeyMustBeAString "TupleVariant")) ∧
    (∀ esc n fs, keyRender esc (.vStructVariant n fs) =
      .error (.KeyMustBeAString "StructVariant")) ∧
    (∀ esc, keyRender esc .vUnit = .error (.KeyMustBeAString "()")) ∧
    (∀ esc, keyRender esc .vNone =
      .error (.KeyMustBeAString "Option::<T>::None")) ∧
    (∀ esc, keyRender esc .vUnitStruct = .error (.KeyMustBeAString "UnitStruct")) :=
  ⟨fun _ _ => rfl, fun _ _ _ => rfl, fun _ _ => rfl, fun _ _ => rfl,
   fun _ _ _ => rfl, fun _ _ => rfl, fun _ _ => rfl, fun _ _ => rfl,
   fun _ _ => rfl, fun _ _ => rfl, fun _ _ => rfl, fun _ _ => rfl,
   fun _ _ => rfl, fun _ _ => rfl, fun _ _ _ => rfl, fun _ _ _ => rfl,
   fun _ _ _ => rfl, fun _ => rfl, fun _ => rfl, fun _ => rfl⟩

/-- C7: a newtype enum variant at the root is encoded as the single pair
variant_name=value, so Complete(404) yields Complete=404, while a unit
variant at the root fails with NotAnObject("UnitVariant"). -/
theorem c7_newtype_variant_root :
    (∀ name v, to_string (.vNewtypeVariant name v) =
        (jsonValue true v).map (fun r => percentEncode name ++ "=" ++ r)) ∧
    to_string (.vNewtypeVariant "Complete" (.vInt .u32 404)) =
      .ok "Complete=404" ∧
    to_string (.vUnitVariant "Pending") = .error (.NotAnObject "UnitVariant") := by
  refine ⟨fun name v => ?_, rfl, rfl⟩
  simp only [to_string, to_writer, serializeRoot]
  cases h : jsonValue true v <;> simp [h, Except.map] <;> rfl

/-- C9: an empty record root and an empty map root encode to Ok with the
empty string, and unit, None and unit-struct roots also return Ok with the
empty string rather than an error. -/
theorem c9_empty_roots :
    to_string (.vStruct []) = .ok "" ∧ to_string (.vMap []) = .ok "" ∧
    to_string .vUnit = .ok "" ∧ to_string .vNone = .ok "" ∧
    to_string .vUnitStruct = .ok "" :=
  ⟨rfl, rfl, rfl, rfl, rfl⟩

/-- C10: to_vec succeeds exactly when to_string does and then returns
precisely the UTF-8 bytes of to_string's output; to_writer into a fresh
empty sink produces the same string as to_string. -/
theorem c10_to_vec_refines_to_string (v : JValue) :
    ((to_vec v).isOk ↔ (to_string v).isOk) ∧
    (∀ s, to_string v = .ok s →
        to_vec v = .ok (utf8Str s) ∧ to_writer "" v = .ok s) := by
  constructor
  · cases h : to_string v <;> simp [to_vec, h, Except.map, Except.isOk] <;> rfl
  · intro s hs
    exact ⟨by simp [to_vec, hs, Except.map], hs⟩

/-- C10 witness: the refinement instantiated at a concrete record. -/
theorem c10_witness :
    to_vec (.vStruct [("id", .vInt .u64 123)]) = .ok (utf8Str "id=123") ∧
    to_writer "" (.vStruct [("id", .vInt .u64 123)]) = .ok "id=123" :=
  (c10_to_vec_refines_to_string (.vStruct [("id", .vInt .u64 123)])).2 "id=123" rfl

end SerdeMetaform
